import Mathlib

/-!
Shallow embedding of the document-ingestion pipeline in
`options-infra/foundry-rag-search/scripts/create_index.py`: the retrying API
callers, the content chunker, the document-to-record mapper, the batch
uploader and the pipeline driver, together with theorems checking the
specification's claims about them.

Modelling conventions:
* Python strings are `List Char` (ASCII whitespace for `str.strip` / `\s`).
* Raising code returns `Except PyExc _`; machine integers are `Nat`.
* External collaborators (Azure SDK clients, `hashlib.md5`, PyMuPDF, the
  OpenAI clients) are passed in as function parameters; an outward call is a
  function from the 0-based attempt number to that attempt's outcome, so the
  retry decorator's behaviour is observable.
* The exponential-backoff sleeps are real-time behaviour and are not
  modelled; only attempt counts and outcomes are.
-/

set_option maxRecDepth 8192

namespace CreateIndexPy

/-- Exception kinds raised by the SDK calls in `create_index.py`:
`RateLimitError`, `APIConnectionError` and `APITimeoutError` are the
transient kinds named in the retry filters; `apiError` models
`openai.APIError` with its status code; `otherExc` stands for any other
Python exception. -/
inductive PyExc where
  | rateLimitError
  | apiConnectionError
  | apiTimeoutError
  | apiError (status : Nat)
  | otherExc
  deriving DecidableEq, Repr

/-- Model of `retry_if_exception_type((RateLimitError, APIConnectionError,
APITimeoutError))` used on `_call_embedding_api` and `_call_vision_api`. -/
def isTransient : PyExc → Bool
  | .rateLimitError => true
  | .apiConnectionError => true
  | .apiTimeoutError => true
  | _ => false

/-- Model of tenacity's default retry predicate (used on the decorators of
`create_document_index`, `upload_pdf_to_blob`, `extract_document_content`
and `_upload_batch`, which pass no `retry=` argument): retry on any
exception. -/
def retryAnyExc : PyExc → Bool := fun _ => true

/-- RETRY_ATTEMPTS from create_index.py. -/
def RETRY_ATTEMPTS : Nat := 3

/-- Model of a `tenacity.retry`-decorated call with
`stop=stop_after_attempt(fuel)`, `reraise=True` and retry predicate
`retryOn`.  `f` maps the 0-based attempt number to that attempt's outcome;
`made` counts attempts already made.  The result is paired with the total
number of attempts made: a success or a non-retryable error ends the loop at
once, a retryable error is retried while attempts remain, and exhausting the
attempts re-raises the last error. -/
def retryCall (retryOn : PyExc → Bool) (f : Nat → Except PyExc α) :
    Nat → Nat → Except PyExc α × Nat
  | fuel + 1, made =>
    match f made with
    | .ok a => (.ok a, made + 1)
    | .error e =>
      if retryOn e ∧ fuel ≠ 0 then retryCall retryOn f fuel (made + 1)
      else (.error e, made + 1)
  | 0, made => (.error .otherExc, made)

/-- Model of `_call_embedding_api`: the embedding request wrapped in the
retry decorator that retries only the transient exception kinds. -/
def _call_embedding_api (f : Nat → Except PyExc (List Int)) :
    Except PyExc (List Int) × Nat :=
  retryCall isTransient f RETRY_ATTEMPTS 0

/-- Model of `_call_vision_api`: the chat-completion request wrapped in the
retry decorator that retries only the transient exception kinds. -/
def _call_vision_api (f : Nat → Except PyExc (List Char)) :
    Except PyExc (List Char) × Nat :=
  retryCall isTransient f RETRY_ATTEMPTS 0

/-- Model of `_upload_batch`: `client.upload_documents(batch)` wrapped in the
retry decorator (tenacity default predicate: retry on any exception); on
success the per-record successes in the store's response are counted,
`sum(1 for r in result if r.succeeded)`. -/
def _upload_batch {D : Type}
    (store : List D → Nat → Nat → Except PyExc (List Bool))
    (batch : List D) (batchNum : Nat) : Except PyExc Nat × Nat :=
  retryCall retryAnyExc
    (fun k => (store batch batchNum k).map (fun res => (res.filter (fun b => b)).length))
    RETRY_ATTEMPTS 0

/-- C1 (amended): the embedding- and vision-call wrappers retry only the
transient kinds {rate-limited, connection-failed, timed-out}: any other
error propagates after exactly one attempt, transient errors are retried up
to 3 bounded attempts with the last error re-raised, and a first-attempt
success returns at once.  The batch-upload retry wrapper, however, has no
exception filter: it retries errors of every kind, re-raising the last one
after 3 attempts. -/
theorem C1_retry_policy
    (f g : Nat → Except PyExc (List Int)) (h : Nat → Except PyExc (List Char))
    (v : List Int)
    (e0 e1 e2 : PyExc)
    (hf0 : f 0 = .error e0) (hf1 : f 1 = .error e1) (hf2 : f 2 = .error e2) :
    (isTransient e0 = false → _call_embedding_api f = (.error e0, 1)) ∧
    (isTransient e0 = true → isTransient e1 = true →
      _call_embedding_api f = (.error e2, 3)) ∧
    (∀ w, h 0 = .ok w → _call_vision_api h = (.ok w, 1)) ∧
    (g 0 = .ok v → _call_embedding_api g = (.ok v, 1)) ∧
    (∀ (D : Type) (store : List D → Nat → Nat → Except PyExc (List Bool))
        (batch : List D) (n : Nat) (d0 d1 d2 : PyExc),
      store batch n 0 = .error d0 → store batch n 1 = .error d1 →
      store batch n 2 = .error d2 →
      _upload_batch store batch n = (.error d2, 3)) := by
  refine ⟨?_, ?_, ?_, ?_, ?_⟩
  · intro hnt
    simp [_call_embedding_api, RETRY_ATTEMPTS, retryCall, hf0, hnt]
  · intro ht0 ht1
    simp [_call_embedding_api, RETRY_ATTEMPTS, retryCall, hf0, hf1, hf2, ht0, ht1]
  · intro w hw
    simp [_call_vision_api, RETRY_ATTEMPTS, retryCall, hw]
  · intro hg
    simp [_call_embedding_api, RETRY_ATTEMPTS, retryCall, hg]
  · intro D store batch n d0 d1 d2 h0 h1 h2
    simp [_upload_batch, RETRY_ATTEMPTS, retryCall, retryAnyExc, h0, h1, h2, Except.map]

/-- C1 witness: concrete instantiation of the amended retry-policy theorem:
a non-transient `APIError 400` on the embedding call propagates after one
attempt, while three transient failures exhaust the three attempts. -/
theorem C1_retry_policy_witness :
    (isTransient (.apiError 400) = false →
      _call_embedding_api (fun _ => .error (.apiError 400)) = (.error (.apiError 400), 1)) ∧
    (isTransient (.apiError 400) = true → isTransient (.apiError 400) = true →
      _call_embedding_api (fun _ => .error (.apiError 400)) = (.error (.apiError 400), 3)) ∧
    (∀ w, (fun _ => (.ok ['d'] : Except PyExc (List Char))) 0 = .ok w →
      _call_vision_api (fun _ => .ok ['d']) = (.ok w, 1)) ∧
    ((fun _ => (.ok [(7 : Int)] : Except PyExc (List Int))) 0 = .ok [(7 : Int)] →
      _call_embedding_api (fun _ => .ok [(7 : Int)]) = (.ok [(7 : Int)], 1)) ∧
    (∀ (D : Type) (store : List D → Nat → Nat → Except PyExc (List Bool))
        (batch : List D) (n : Nat) (d0 d1 d2 : PyExc),
      store batch n 0 = .error d0 → store batch n 1 = .error d1 →
      store batch n 2 = .error d2 →
      _upload_batch store batch n = (.error d2, 3)) :=
  C1_retry_policy (fun _ => .error (.apiError 400)) (fun _ => .ok [(7 : Int)])
    (fun _ => .ok ['d']) [(7 : Int)] (.apiError 400) (.apiError 400) (.apiError 400)
    rfl rfl rfl

/-- C1 counterexample: the batch-upload caller (`_upload_batch`'s decorator
passes no `retry=` filter) makes all 3 attempts on a non-transient
`APIError 400` instead of propagating it after a single attempt, refuting
the claim that every call routed through the retrying API caller retries
only the transient set. -/
theorem C1_counterexample :
    isTransient (.apiError 400) = false ∧
    _upload_batch (fun (_ : List Nat) _ _ => .error (.apiError 400)) [0] 1
      = (.error (.apiError 400), 3) ∧
    (3 : Nat) ≠ 1 := by
  refine ⟨rfl, ?_, by decide⟩
  rfl

/-! ### Python `range` with a positive step, and the batch uploader -/

/-- Fuel-driven loop behind `pyRangeUp`; the fuel bounds the number of
iterations (each iteration advances `start` by `step ≥ 1`). -/
def pyRangeUpAux (step : Nat) : Nat → Nat → Nat → List Nat
  | 0, _, _ => []
  | fuel + 1, start, stop =>
    if start < stop then start :: pyRangeUpAux step fuel (start + step) stop else []

/-- Model of Python `range(start, stop, step)` for a positive step: the
ascending arithmetic progression from `start` below `stop`.  (For
`step = 0` Python raises `ValueError`; the model returns `[]`, a case no
modelled call site reaches.) -/
def pyRangeUp (start stop step : Nat) : List Nat :=
  if 0 < step then pyRangeUpAux step (stop - start) start stop else []

theorem pyRangeUpAux_fuel (step : Nat) (hstep : 0 < step) :
    ∀ (fuel fuel' start stop : Nat), stop - start ≤ fuel → stop - start ≤ fuel' →
      pyRangeUpAux step fuel start stop = pyRangeUpAux step fuel' start stop := by
  intro fuel
  induction fuel with
  | zero =>
    intro fuel' start stop h h'
    have hns : ¬ start < stop := by omega
    cases fuel' <;> simp [pyRangeUpAux, hns]
  | succ k ih =>
    intro fuel' start stop h h'
    cases fuel' with
    | zero =>
      have hns : ¬ start < stop := by omega
      simp [pyRangeUpAux, hns]
    | succ k' =>
      by_cases hlt : start < stop
      · simp only [pyRangeUpAux, if_pos hlt]
        exact congrArg _ (ih k' (start + step) stop (by omega) (by omega))
      · simp [pyRangeUpAux, hlt]

/-- One-step unfolding of `pyRangeUp`, matching the Python loop. -/
theorem pyRangeUp_eq {step : Nat} (hstep : 0 < step) (start stop : Nat) :
    pyRangeUp start stop step =
      if start < stop then start :: pyRangeUp (start + step) stop step else [] := by
  by_cases hlt : start < stop
  · have h1 : stop - start = (stop - start - 1) + 1 := by omega
    simp only [pyRangeUp, if_pos hstep, if_pos hlt]
    rw [h1]
    simp only [pyRangeUpAux, if_pos hlt]
    exact congrArg _ (pyRangeUpAux_fuel step hstep _ _ _ _ (by omega) (by omega))
  · have h0 : stop - start = 0 := by omega
    simp [pyRangeUp, hstep, h0, pyRangeUpAux, hlt]

theorem pyRangeUp_shift {step : Nat} (hstep : 0 < step) (d : Nat) :
    ∀ (k s t : Nat), t - s ≤ k →
      pyRangeUp (s + d) (t + d) step = (pyRangeUp s t step).map (· + d) := by
  intro k
  induction k with
  | zero =>
    intro s t h
    rw [pyRangeUp_eq hstep (s + d) (t + d), pyRangeUp_eq hstep s t]
    simp [show ¬ s < t by omega, show ¬ s + d < t + d by omega]
  | succ k ih =>
    intro s t h
    rw [pyRangeUp_eq hstep (s + d) (t + d), pyRangeUp_eq hstep s t]
    by_cases hlt : s < t
    · simp only [if_pos hlt, if_pos (show s + d < t + d by omega), List.map_cons]
      rw [show s + d + step = (s + step) + d by omega]
      exact congrArg _ (ih (s + step) t (by omega))
    · simp [hlt, show ¬ s + d < t + d by omega]

/-- Batch size used by `upload_documents`. -/
def UPLOAD_BATCH_SIZE : Nat := 100

/-- Model of `upload_documents`: iterate `i in range(0, len(documents),
batch_size)`, take `documents[i:i+batch_size]` as the batch with
`batch_num = i // batch_size + 1`, call `_upload_batch` inside a
try/except, counting per-record successes on a normal return and the whole
batch as failed when the call raises after its retries.  The returned
triple is (total_succeeded, total_failed, trace), where the trace records
the (batch number, batch length) of every batch call made, in order. -/
def upload_documents {D : Type}
    (store : List D → Nat → Nat → Except PyExc (List Bool))
    (documents : List D) : Nat × Nat × List (Nat × Nat) :=
  (pyRangeUp 0 documents.length UPLOAD_BATCH_SIZE).foldl
    (fun acc i =>
      let batch := (documents.drop i).take UPLOAD_BATCH_SIZE
      let batchNum := i / UPLOAD_BATCH_SIZE + 1
      match (_upload_batch store batch batchNum).1 with
      | .ok n => (acc.1 + n, acc.2.1 + (batch.length - n), acc.2.2 ++ [(batchNum, batch.length)])
      | .error _ => (acc.1, acc.2.1 + batch.length, acc.2.2 ++ [(batchNum, batch.length)]))
    (0, 0, [])

/-- Reference form of the batch partition: consecutive slices of 100 records
(fuel-driven so that it evaluates; the fuel bounds the iteration count). -/
def batchesOf {D : Type} : Nat → List D → List (List D)
  | 0, _ => []
  | fuel + 1, l =>
    if l.isEmpty then [] else l.take UPLOAD_BATCH_SIZE :: batchesOf fuel (l.drop UPLOAD_BATCH_SIZE)

/-- Consecutive batches of at most 100 records covering `l`. -/
def toBatches {D : Type} (l : List D) : List (List D) := batchesOf l.length l

theorem batchesOf_fuel {D : Type} :
    ∀ (fuel fuel' : Nat) (l : List D), l.length ≤ fuel → l.length ≤ fuel' →
      batchesOf fuel l = batchesOf fuel' l := by
  intro fuel
  induction fuel with
  | zero =>
    intro fuel' l h h'
    have hl : l = [] := by
      cases l with
      | nil => rfl
      | cons a t => simp at h
    subst hl
    cases fuel' <;> simp [batchesOf]
  | succ k ih =>
    intro fuel' l h h'
    cases l with
    | nil => cases fuel' <;> simp [batchesOf]
    | cons a t =>
      cases fuel' with
      | zero => simp at h'
      | succ k' =>
        simp only [batchesOf, List.isEmpty_cons, Bool.false_eq_true, if_false]
        refine congrArg _ (ih k' ((a :: t).drop UPLOAD_BATCH_SIZE) ?_ ?_) <;>
          · simp only [List.length_drop, List.length_cons, UPLOAD_BATCH_SIZE]
            simp only [List.length_cons] at h h'
            omega

theorem toBatches_cons {D : Type} (l : List D) (hne : l ≠ []) :
    toBatches l = l.take UPLOAD_BATCH_SIZE :: toBatches (l.drop UPLOAD_BATCH_SIZE) := by
  cases l with
  | nil => exact absurd rfl hne
  | cons a t =>
    show batchesOf (a :: t).length (a :: t) = _
    simp only [List.length_cons, batchesOf, List.isEmpty_cons, Bool.false_eq_true, if_false]
    refine congrArg _ (batchesOf_fuel t.length _ ((a :: t).drop UPLOAD_BATCH_SIZE) ?_ ?_) <;>
      · simp only [List.length_drop, List.length_cons, UPLOAD_BATCH_SIZE]
        omega

theorem toBatches_flatten {D : Type} :
    ∀ (k : Nat) (l : List D), l.length ≤ k → (toBatches l).flatten = l := by
  intro k
  induction k with
  | zero =>
    intro l h
    have : l = [] := by cases l with
      | nil => rfl
      | cons a t => simp at h
    subst this; rfl
  | succ k ih =>
    intro l h
    by_cases hne : l = []
    · subst hne; rfl
    · rw [toBatches_cons l hne]
      simp only [List.flatten_cons]
      rw [ih (l.drop UPLOAD_BATCH_SIZE) (by
        have hp := List.length_pos.mpr hne
        simp only [List.length_drop, UPLOAD_BATCH_SIZE]
        omega)]
      exact List.take_append_drop _ l

theorem toBatches_short {D : Type} :
    ∀ (k : Nat) (l : List D), l.length ≤ k →
      ∀ b ∈ toBatches l, b.length ≤ UPLOAD_BATCH_SIZE ∧ b ≠ [] := by
  intro k
  induction k with
  | zero =>
    intro l h b hb
    have : l = [] := by cases l with
      | nil => rfl
      | cons a t => simp at h
    subst this; simp [toBatches, batchesOf] at hb
  | succ k ih =>
    intro l h b hb
    by_cases hne : l = []
    · subst hne; simp [toBatches, batchesOf] at hb
    · rw [toBatches_cons l hne, List.mem_cons] at hb
      rcases hb with hb | hb
      · subst hb
        refine ⟨List.length_take_le _ _, ?_⟩
        have := List.length_pos.mpr hne
        have hlen : (l.take UPLOAD_BATCH_SIZE).length = min UPLOAD_BATCH_SIZE l.length :=
          List.length_take _ _
        intro hcon
        rw [hcon] at hlen
        simp only [List.length_nil, UPLOAD_BATCH_SIZE] at hlen
        omega
      · exact ih (l.drop UPLOAD_BATCH_SIZE) (by
          have hp := List.length_pos.mpr hne
          simp only [List.length_drop, UPLOAD_BATCH_SIZE]
          omega) b hb

/-- Per-batch outcome of a batch call: on a normal return the response's
success count and the complement as failures; on a raise (after the
retries) zero successes and the whole batch length as failures. -/
def perBatch {D : Type} (store : List D → Nat → Nat → Except PyExc (List Bool))
    (b : List D) (num : Nat) : Nat × Nat :=
  match (_upload_batch store b num).1 with
  | .ok n => (n, b.length - n)
  | .error _ => (0, b.length)

/-- Reference recursion for the upload loop over a prepared batch list. -/
def uploadGo {D : Type} (store : List D → Nat → Nat → Except PyExc (List Bool)) :
    List (List D) → Nat → Nat × Nat × List (Nat × Nat) → Nat × Nat × List (Nat × Nat)
  | [], _, acc => acc
  | b :: bs, num, acc =>
    match (_upload_batch store b num).1 with
    | .ok n =>
      uploadGo store bs (num + 1) (acc.1 + n, acc.2.1 + (b.length - n), acc.2.2 ++ [(num, b.length)])
    | .error _ =>
      uploadGo store bs (num + 1) (acc.1, acc.2.1 + b.length, acc.2.2 ++ [(num, b.length)])

theorem upload_documents_go {D : Type}
    (store : List D → Nat → Nat → Except PyExc (List Bool)) (documents : List D) :
    ∀ (k s : Nat) (acc : Nat × Nat × List (Nat × Nat)),
      documents.length - s ≤ k →
      (pyRangeUp s documents.length UPLOAD_BATCH_SIZE).foldl
        (fun acc i =>
          let batch := (documents.drop i).take UPLOAD_BATCH_SIZE
          let batchNum := i / UPLOAD_BATCH_SIZE + 1
          match (_upload_batch store batch batchNum).1 with
          | .ok n => (acc.1 + n, acc.2.1 + (batch.length - n), acc.2.2 ++ [(batchNum, batch.length)])
          | .error _ => (acc.1, acc.2.1 + batch.length, acc.2.2 ++ [(batchNum, batch.length)]))
        acc
      = uploadGo store (toBatches (documents.drop s)) (s / UPLOAD_BATCH_SIZE + 1) acc := by
  have hstep : (0 : Nat) < UPLOAD_BATCH_SIZE := by decide
  intro k
  induction k with
  | zero =>
    intro s acc h
    have hns : ¬ s < documents.length := by omega
    rw [pyRangeUp_eq hstep s documents.length, if_neg hns]
    rw [List.drop_eq_nil_of_le (by omega)]
    simp [toBatches, batchesOf, uploadGo]
  | succ k ih =>
    intro s acc h
    by_cases hlt : s < documents.length
    · rw [pyRangeUp_eq hstep s documents.length, if_pos hlt]
      simp only [List.foldl_cons]
      have hne : documents.drop s ≠ [] := by
        intro hcon
        have := List.drop_eq_nil_iff.mp hcon
        omega
      rw [toBatches_cons (documents.drop s) hne]
      have hdd : (documents.drop s).drop UPLOAD_BATCH_SIZE
          = documents.drop (s + UPLOAD_BATCH_SIZE) := by
        rw [List.drop_drop]
      have hnum : (s + UPLOAD_BATCH_SIZE) / UPLOAD_BATCH_SIZE + 1
          = s / UPLOAD_BATCH_SIZE + 1 + 1 := by
        rw [Nat.add_div_right s hstep]
      have hih := fun acc' => ih (s + UPLOAD_BATCH_SIZE) acc'
        (show documents.length - (s + UPLOAD_BATCH_SIZE) ≤ k by omega)
      simp only [uploadGo]
      cases hcall : (_upload_batch store ((documents.drop s).take UPLOAD_BATCH_SIZE)
          (s / UPLOAD_BATCH_SIZE + 1)).1 with
      | ok n =>
        simp only [hcall]
        rw [hdd, ← hnum, hih]
      | error e =>
        simp only [hcall]
        rw [hdd, ← hnum, hih]
    · rw [pyRangeUp_eq hstep s documents.length, if_neg hlt]
      rw [List.drop_eq_nil_of_le (by omega)]
      simp [toBatches, batchesOf, uploadGo]

theorem upload_documents_spec {D : Type}
    (store : List D → Nat → Nat → Except PyExc (List Bool)) (documents : List D) :
    upload_documents store documents = uploadGo store (toBatches documents) 1 (0, 0, []) := by
  have h := upload_documents_go store documents documents.length 0 (0, 0, []) (by omega)
  simpa [upload_documents, UPLOAD_BATCH_SIZE] using h

theorem uploadGo_trace {D : Type} (store : List D → Nat → Nat → Except PyExc (List Bool)) :
    ∀ (bs : List (List D)) (num : Nat) (acc : Nat × Nat × List (Nat × Nat)),
      (uploadGo store bs num acc).2.2
        = acc.2.2 ++ (bs.enumFrom num).map (fun p => (p.1, p.2.length)) := by
  intro bs
  induction bs with
  | nil => intro num acc; simp [uploadGo]
  | cons b t ih =>
    intro num acc
    simp only [uploadGo]
    cases hcall : (_upload_batch store b num).1 with
    | ok n => rw [ih]; simp [List.enumFrom]
    | error e => rw [ih]; simp [List.enumFrom]

theorem uploadGo_totals {D : Type} (store : List D → Nat → Nat → Except PyExc (List Bool)) :
    ∀ (bs : List (List D)) (num : Nat) (acc : Nat × Nat × List (Nat × Nat)),
      (uploadGo store bs num acc).1
          = acc.1 + (((bs.enumFrom num).map (fun p => (perBatch store p.2 p.1).1)).sum) ∧
      (uploadGo store bs num acc).2.1
          = acc.2.1 + (((bs.enumFrom num).map (fun p => (perBatch store p.2 p.1).2)).sum) := by
  intro bs
  induction bs with
  | nil => intro num acc; simp [uploadGo]
  | cons b t ih =>
    intro num acc
    simp only [uploadGo, List.enumFrom, List.map_cons, List.sum_cons]
    cases hcall : (_upload_batch store b num).1 with
    | ok n =>
      have hpb : perBatch store b num = (n, b.length - n) := by
        simp [perBatch, hcall]
      rcases ih (num + 1)
        (acc.1 + n, acc.2.1 + (b.length - n), acc.2.2 ++ [(num, b.length)]) with ⟨h1, h2⟩
      simp only [hcall]
      rw [h1, h2, hpb]
      refine ⟨?_, ?_⟩ <;> (simp; try omega)
    | error e =>
      have hpb : perBatch store b num = (0, b.length) := by
        simp [perBatch, hcall]
      rcases ih (num + 1)
        (acc.1, acc.2.1 + b.length, acc.2.2 ++ [(num, b.length)]) with ⟨h1, h2⟩
      simp only [hcall]
      rw [h1, h2, hpb]
      refine ⟨?_, ?_⟩ <;> (simp; try omega)

/-- C2: the uploader partitions any record list into consecutive batches of
at most 100 records covering the list, attempts every batch in order (the
trace lists batch numbers 1, 2, … with each batch's length, whatever the
outcomes), the totals decompose batch by batch with a raising batch
contributing all of its records to the failed count, and in the concrete
150-record run whose second batch call raises after retries the outcome is
100 succeeded, 50 failed, with exactly 2 batch calls of sizes 100 and 50. -/
theorem C2_batch_upload {D : Type}
    (store : List D → Nat → Nat → Except PyExc (List Bool)) (documents : List D) :
    ((toBatches documents).flatten = documents) ∧
    (∀ b ∈ toBatches documents, b.length ≤ 100 ∧ b ≠ []) ∧
    ((upload_documents store documents).2.2
      = ((toBatches documents).enumFrom 1).map (fun p => (p.1, p.2.length))) ∧
    ((upload_documents store documents).1
      = (((toBatches documents).enumFrom 1).map (fun p => (perBatch store p.2 p.1).1)).sum) ∧
    ((upload_documents store documents).2.1
      = (((toBatches documents).enumFrom 1).map (fun p => (perBatch store p.2 p.1).2)).sum) ∧
    (upload_documents
        (fun b n _ => if n = 1 then .ok (b.map (fun _ => true)) else .error .rateLimitError)
        (List.range 150)
      = (100, 50, [(1, 100), (2, 50)])) := by
  refine ⟨toBatches_flatten documents.length documents le_rfl,
    toBatches_short documents.length documents le_rfl, ?_, ?_, ?_, by decide⟩
  · rw [upload_documents_spec, uploadGo_trace]
    simp
  · rw [upload_documents_spec, (uploadGo_totals store (toBatches documents) 1 (0, 0, [])).1]
    simp
  · rw [upload_documents_spec, (uploadGo_totals store (toBatches documents) 1 (0, 0, [])).2]
    simp

/-- C2 witness: the batch-upload theorem instantiated at the concrete
150-record run, with its bounded-quantifier part evaluated at the first
batch. -/
theorem C2_batch_upload_witness :
    ((toBatches (List.range 150)).flatten = List.range 150) ∧
    (List.range 100 ∈ toBatches (List.range 150) →
      (List.range 100).length ≤ 100 ∧ List.range 100 ≠ []) ∧
    (upload_documents
        (fun b n _ => if n = 1 then .ok (b.map (fun _ => true)) else .error .rateLimitError)
        (List.range 150)
      = (100, 50, [(1, 100), (2, 50)])) := by
  have h := C2_batch_upload
    (fun (b : List Nat) n _ => if n = 1 then .ok (b.map (fun _ => true))
      else .error .rateLimitError)
    (List.range 150)
  exact ⟨h.1, fun hm => h.2.1 (List.range 100) hm, h.2.2.2.2.2⟩

/-! ### The content chunker -/

/-- ASCII whitespace, as recognised by Python's `str.strip` and by `\s` in
the separator regex (the inputs modelled here are ASCII). -/
def isPySpace (c : Char) : Bool :=
  c = ' ' ∨ c = '\t' ∨ c = '\n' ∨ c = '\x0b' ∨ c = '\x0c' ∨ c = '\r'

/-- Model of Python `str.strip()`: remove leading and trailing whitespace. -/
def pyStrip (l : List Char) : List Char :=
  ((l.dropWhile isPySpace).reverse.dropWhile isPySpace).reverse

/-- The `"\n\n"` separator appended after each accumulated paragraph. -/
def blankSep : List Char := ['\n', '\n']

/-- Index of the last `'\n'` in `w`, if any. -/
def lastNl : List Char → Option Nat
  | [] => none
  | c :: rest =>
    match lastNl rest with
    | some j => some (j + 1)
    | none => if c = '\n' then some 0 else none

/-- Length of the greedy match of the separator regex `\n\s*\n` at the head
of `l`, if it matches there: a newline, then the longest whitespace run that
still ends in a newline. -/
def blankMatchLen : List Char → Option Nat
  | [] => none
  | c :: rest =>
    if c = '\n' then
      match lastNl (rest.takeWhile isPySpace) with
      | some j => some (j + 2)
      | none => none
    else none

theorem lastNl_lt : ∀ (w : List Char) (j : Nat), lastNl w = some j → j < w.length := by
  intro w
  induction w with
  | nil => intro j h; simp [lastNl] at h
  | cons c rest ih =>
    intro j h
    simp only [lastNl] at h
    cases hr : lastNl rest with
    | some j' =>
      rw [hr] at h
      cases h
      have hj := ih j' hr
      simp only [List.length_cons]
      omega
    | none =>
      rw [hr] at h
      by_cases hc : c = '\n'
      · rw [if_pos hc] at h
        cases h
        simp
      · rw [if_neg hc] at h
        cases h

theorem blankMatchLen_bounds :
    ∀ (l : List Char) (m : Nat), blankMatchLen l = some m → 2 ≤ m ∧ m ≤ l.length := by
  intro l m h
  cases l with
  | nil => simp [blankMatchLen] at h
  | cons c rest =>
    simp only [blankMatchLen] at h
    by_cases hc : c = '\n'
    · rw [if_pos hc] at h
      cases hj : lastNl (rest.takeWhile isPySpace) with
      | some j =>
        rw [hj] at h
        cases h
        have h1 := lastNl_lt _ _ hj
        have h2 : (rest.takeWhile isPySpace).length ≤ rest.length :=
          (List.takeWhile_sublist _).length_le
        simp
        omega
      | none => rw [hj] at h; cases h
    · rw [if_neg hc] at h; cases h

/-- Loop behind the model of `re.split(r"\n\s*\n", content)`; the fuel
bounds the number of steps (each step consumes at least one character). -/
def splitGoAux : Nat → List Char → List Char → List (List Char)
  | 0, l, acc => [acc.reverse ++ l]
  | fuel + 1, l, acc =>
    match l with
    | [] => [acc.reverse]
    | c :: rest =>
      match blankMatchLen (c :: rest) with
      | some m => acc.reverse :: splitGoAux fuel ((c :: rest).drop m) []
      | none => splitGoAux fuel rest (c :: acc)

/-- Model of `re.split(r"\n\s*\n", content)`: split on greedy blank-line
separator matches, scanning left to right. -/
def pySplitBlank (l : List Char) : List (List Char) := splitGoAux l.length l []

theorem splitGoAux_fuel :
    ∀ (fuel fuel' : Nat) (l acc : List Char), l.length ≤ fuel → l.length ≤ fuel' →
      splitGoAux fuel l acc = splitGoAux fuel' l acc := by
  intro fuel
  induction fuel with
  | zero =>
    intro fuel' l acc h h'
    have hl : l = [] := by
      cases l with
      | nil => rfl
      | cons a t => simp at h
    subst hl
    cases fuel' <;> simp [splitGoAux]
  | succ k ih =>
    intro fuel' l acc h h'
    cases l with
    | nil => cases fuel' <;> simp [splitGoAux]
    | cons c rest =>
      cases fuel' with
      | zero => simp at h'
      | succ k' =>
        simp only [splitGoAux]
        cases hm : blankMatchLen (c :: rest) with
        | some m =>
          have hb := blankMatchLen_bounds _ _ hm
          refine congrArg _ (ih k' _ [] ?_ ?_) <;>
            · simp only [List.length_drop, List.length_cons]
              simp only [List.length_cons] at hb h h'
              omega
        | none =>
          exact ih k' rest (c :: acc) (by simp at h ⊢; omega) (by simp at h' ⊢; omega)

/-- Model of the Python slice `l[-k:]` (only reached from the chunker with
`len(l) > k`; Python's `l[-0:]` is the whole string). -/
def pyTakeLast (l : List Char) (k : Nat) : List Char :=
  if k = 0 then l else l.drop (l.length - k)

/-- Model of the oversized-paragraph slicing
`[para[i : i + chunk_size] for i in range(0, len(para), chunk_size - overlap)]`. -/
def strideChunks (cs ov : Nat) (para : List Char) : List (List Char) :=
  (pyRangeUp 0 para.length (cs - ov)).map (fun i => (para.drop i).take cs)

/-- Model of the paragraph loop of `chunk_content`: accumulate paragraphs
into `cur`; on overflow with a non-empty buffer, yield the stripped buffer
and seed the next buffer with the trailing `ov` characters; on overflow with
an empty buffer (a single paragraph larger than the chunk size), yield the
fixed-stride slices; finally yield the stripped remainder if non-blank. -/
def chunkLoop (cs ov : Nat) : List (List Char) → List Char → Nat → List (Nat × List Char)
  | [], cur, idx => if pyStrip cur ≠ [] then [(idx, pyStrip cur)] else []
  | para :: ps, cur, idx =>
    if cur.length + para.length ≤ cs then
      chunkLoop cs ov ps (cur ++ para ++ blankSep) idx
    else if cur ≠ [] then
      (idx, pyStrip cur) ::
        chunkLoop cs ov ps
          ((if ov < cur.length then pyTakeLast cur ov else cur) ++ para ++ blankSep)
          (idx + 1)
    else
      (strideChunks cs ov para).enumFrom idx ++
        chunkLoop cs ov ps [] (idx + (strideChunks cs ov para).length)

/-- Model of `chunk_content`: empty content yields the single chunk
`(0, "")`; otherwise the paragraph loop runs over the blank-line split. -/
def chunk_content (content : List Char) (cs ov : Nat) : List (Nat × List Char) :=
  if content = [] then [(0, [])]
  else chunkLoop cs ov (pySplitBlank content) [] 0

theorem chunkLoop_map_fst (cs ov : Nat) :
    ∀ (ps : List (List Char)) (cur : List Char) (idx : Nat),
      (chunkLoop cs ov ps cur idx).map Prod.fst
        = List.range' idx (chunkLoop cs ov ps cur idx).length := by
  intro ps
  induction ps with
  | nil =>
    intro cur idx
    by_cases h : pyStrip cur ≠ [] <;> simp [chunkLoop, h, List.range']
  | cons para ps ih =>
    intro cur idx
    simp only [chunkLoop]
    by_cases h1 : cur.length + para.length ≤ cs
    · simp only [if_pos h1]
      exact ih _ idx
    · simp only [if_neg h1]
      by_cases h2 : cur ≠ []
      · simp only [if_pos h2, List.map_cons, List.length_cons, ih]
        rw [List.range'_succ]
      · simp only [if_neg h2, List.map_append, List.length_append, ih,
          List.enumFrom_map_fst, List.enumFrom_length]
        rw [Nat.add_comm (strideChunks cs ov para).length]
        exact List.range'_append_1 idx _ _

theorem chunk_content_map_fst (content : List Char) (cs ov : Nat) :
    (chunk_content content cs ov).map Prod.fst
        = List.range (chunk_content content cs ov).length := by
  rw [List.range_eq_range']
  by_cases h : content = []
  · subst h; simp [chunk_content]
  · simp only [chunk_content, if_neg h]
    exact chunkLoop_map_fst cs ov _ [] 0

/-- C5 (amended): the chunker assigns consecutive indices starting at 0
(hence strictly increasing), and empty input yields exactly the single chunk
`(0, "")`; however, a yielded chunk text may also be empty for non-empty
input, when a whitespace-only buffer is flushed by an overflowing paragraph
(see the counterexample). -/
theorem C5_chunk_indices (content : List Char) (cs ov : Nat) :
    (chunk_content content cs ov).map Prod.fst
        = List.range (chunk_content content cs ov).length ∧
    chunk_content [] cs ov = [(0, [])] :=
  ⟨chunk_content_map_fst content cs ov, rfl⟩

/-- C5 counterexample: the non-empty input `"\n\nxxxxx"` with chunk size 5
and overlap 2 yields the empty chunk `(0, "")`: the two leading blank-line
characters form a whitespace-only buffer which is flushed (and stripped to
empty) when the overflowing paragraph `"xxxxx"` arrives.  This refutes the
claim that no yielded chunk text is empty except for empty input. -/
theorem C5_counterexample :
    chunk_content "\n\nxxxxx".toList 5 2 = [(0, []), (1, "xxxxx".toList)] ∧
    "\n\nxxxxx".toList ≠ [] := by
  constructor <;> decide

theorem pySplitBlank_no_newline_aux :
    ∀ (fuel : Nat) (l acc : List Char), l.length ≤ fuel → '\n' ∉ l →
      splitGoAux fuel l acc = [acc.reverse ++ l] := by
  intro fuel
  induction fuel with
  | zero =>
    intro l acc h hnl
    rfl
  | succ k ih =>
    intro l acc h hnl
    cases l with
    | nil => simp [splitGoAux]
    | cons c rest =>
      have hc : c ≠ '\n' := by
        intro hcon
        exact hnl (by rw [← hcon]; exact List.mem_cons_self c rest)
      have hm : blankMatchLen (c :: rest) = none := by
        simp [blankMatchLen, hc]
      simp only [splitGoAux, hm]
      rw [ih rest (c :: acc) (by simp at h ⊢; omega)
        (fun hmem => hnl (List.mem_cons_of_mem _ hmem))]
      simp

/-- Input without newlines has no blank-line separator: the split is the
whole string. -/
theorem pySplitBlank_no_newline (l : List Char) (hnl : '\n' ∉ l) :
    pySplitBlank l = [l] := by
  unfold pySplitBlank
  rw [pySplitBlank_no_newline_aux l.length l [] le_rfl hnl]
  simp

theorem strideChunks_cons (cs ov : Nat) (hov : ov < cs) (l : List Char) (hne : l ≠ []) :
    strideChunks cs ov l = l.take cs :: strideChunks cs ov (l.drop (cs - ov)) := by
  have hstep : 0 < cs - ov := by omega
  have hpos : 0 < l.length := List.length_pos.mpr hne
  unfold strideChunks
  rw [pyRangeUp_eq hstep 0 l.length, if_pos hpos]
  simp only [List.map_cons, List.drop_zero, Nat.zero_add, List.length_drop]
  congr 1
  rcases Nat.le_total (cs - ov) l.length with hle | hle
  · have hs := pyRangeUp_shift hstep (cs - ov) (l.length - (cs - ov)) 0
      (l.length - (cs - ov)) (by omega)
    rw [Nat.zero_add, show l.length - (cs - ov) + (cs - ov) = l.length by omega] at hs
    rw [hs, List.map_map]
    refine List.map_congr_left ?_
    intro i hi
    simp only [Function.comp_apply]
    rw [List.drop_drop]
    congr 2
    omega
  · rw [pyRangeUp_eq hstep (cs - ov) l.length, if_neg (by omega),
      show l.length - (cs - ov) = 0 by omega, pyRangeUp_eq hstep 0 0, if_neg (by omega)]
    simp

theorem chunk_content_single_long (content : List Char) (cs ov : Nat)
    (hnl : '\n' ∉ content) (hne : content ≠ []) (hlen : cs < content.length) :
    chunk_content content cs ov = (strideChunks cs ov content).enumFrom 0 := by
  unfold chunk_content
  rw [if_neg hne, pySplitBlank_no_newline content hnl]
  simp only [chunkLoop]
  rw [if_neg (by simp only [List.length_nil]; omega), if_neg (by simp)]
  simp [chunkLoop, pyStrip]

/-- C6: for a single-paragraph input (no blank-line separator) longer than
the chunk size, the chunker yields exactly the fixed-stride slices
`para[i : i + chunk_size]` for `i` a multiple of `chunk_size - overlap`,
every fragment at most `chunk_size` long; in particular a 2500-character
single paragraph with chunk size 2000 and overlap 200 yields exactly 2
chunks: chunk 0 of length 2000 and chunk 1 of length 700 beginning with the
last 200 characters of chunk 0. -/
theorem C6_stride_split (content : List Char) (cs ov : Nat)
    (hnl : '\n' ∉ content) (hne : content ≠ []) (hov : ov < cs) (hlen : cs < content.length) :
    (chunk_content content cs ov = (strideChunks cs ov content).enumFrom 0) ∧
    (∀ c ∈ chunk_content content cs ov, c.2.length ≤ cs) ∧
    (content.length = 2500 → cs = 2000 → ov = 200 →
      chunk_content content cs ov = [(0, content.take 2000), (1, content.drop 1800)] ∧
      (content.take 2000).length = 2000 ∧
      (content.drop 1800).length = 700 ∧
      (content.drop 1800).take 200 = (content.take 2000).drop 1800) := by
  have hmain := chunk_content_single_long content cs ov hnl hne hlen
  refine ⟨hmain, ?_, ?_⟩
  · intro c hc
    rw [hmain] at hc
    have h2 : c.2 ∈ strideChunks cs ov content := by
      rw [← List.enumFrom_map_snd 0 (strideChunks cs ov content)]
      exact List.mem_map_of_mem Prod.snd hc
    rcases List.mem_map.mp h2 with ⟨i, hi, hci⟩
    rw [← hci, List.length_take]
    omega
  · intro h25 hcs hovv
    subst hcs
    subst hovv
    have hpieces : strideChunks 2000 200 content = [content.take 2000, content.drop 1800] := by
      unfold strideChunks
      rw [h25, show pyRangeUp 0 2500 1800 = [0, 1800] from by decide]
      simp only [List.map_cons, List.map_nil, List.drop_zero]
      have hdl : (content.drop 1800).length = 700 := by
        rw [List.length_drop, h25]
      have htk : List.take 2000 (List.drop 1800 content) = List.drop 1800 content :=
        List.take_of_length_le (by rw [hdl]; omega)
      rw [htk]
    rw [hmain, hpieces]
    refine ⟨by simp [List.enumFrom], ?_, ?_, ?_⟩
    · rw [List.length_take, h25]
      omega
    · rw [List.length_drop, h25]
    · rw [List.take_drop, show 1800 + 200 = 2000 from rfl]

/-- C6 witness: the stride-split theorem instantiated at the concrete
2500-character single-paragraph input `'x' * 2500` with chunk size 2000 and
overlap 200. -/
theorem C6_stride_split_witness :
    (chunk_content (List.replicate 2500 'x') 2000 200
        = (strideChunks 2000 200 (List.replicate 2500 'x')).enumFrom 0) ∧
    (∀ c ∈ chunk_content (List.replicate 2500 'x') 2000 200, c.2.length ≤ 2000) ∧
    ((List.replicate 2500 'x').length = 2500 → (2000 : Nat) = 2000 → (200 : Nat) = 200 →
      chunk_content (List.replicate 2500 'x') 2000 200
          = [(0, (List.replicate 2500 'x').take 2000), (1, (List.replicate 2500 'x').drop 1800)] ∧
      ((List.replicate 2500 'x').take 2000).length = 2000 ∧
      ((List.replicate 2500 'x').drop 1800).length = 700 ∧
      ((List.replicate 2500 'x').drop 1800).take 200
          = ((List.replicate 2500 'x').take 2000).drop 1800) :=
  C6_stride_split (List.replicate 2500 'x') 2000 200
    (by decide)
    (by decide)
    (by omega)
    (by rw [List.length_replicate]; omega)

/-! ### Chunk reconstruction (claim C7): an instrumented chunker that keeps,
for every yielded chunk, the overlap seed it was planted with and the body
of fresh text after the seed, exactly mirroring `chunk_content`. -/

/-- One yielded chunk of the instrumented chunker: its index, the overlap
seed its buffer started with, the body appended after the seed, and whether
the yielded text is the stripped buffer (paragraph path) or the raw buffer
(fixed-stride path). -/
structure ChunkTrace where
  idx : Nat
  seed : List Char
  body : List Char
  stripped : Bool
  deriving Repr, DecidableEq

/-- The chunk text actually yielded for a trace entry. -/
def yieldText (t : ChunkTrace) : List Char :=
  if t.stripped then pyStrip (t.seed ++ t.body) else t.seed ++ t.body

/-- Instrumented fixed-stride slices: the first piece has no seed; each
later piece's seed is its leading `ov` characters (the overlap with the
previous piece). -/
def strideTraces (cs ov : Nat) (p : List Char) (idx : Nat) : List ChunkTrace :=
  match strideChunks cs ov p with
  | [] => []
  | h :: t =>
    ⟨idx, [], h, false⟩ ::
      (t.enumFrom (idx + 1)).map (fun ji => ⟨ji.1, ji.2.take ov, ji.2.drop ov, false⟩)

/-- Instrumented paragraph loop, mirroring `chunkLoop` with the buffer kept
as `seed ++ body`. -/
def chunkLoopT (cs ov : Nat) : List (List Char) → List Char → List Char → Nat → List ChunkTrace
  | [], seed, body, idx =>
    if pyStrip (seed ++ body) ≠ [] then [⟨idx, seed, body, true⟩] else []
  | p :: ps, seed, body, idx =>
    if (seed ++ body).length + p.length ≤ cs then
      chunkLoopT cs ov ps seed (body ++ p ++ blankSep) idx
    else if seed ++ body ≠ [] then
      ⟨idx, seed, body, true⟩ ::
        chunkLoopT cs ov ps
          (if ov < (seed ++ body).length then pyTakeLast (seed ++ body) ov else seed ++ body)
          (p ++ blankSep) (idx + 1)
    else
      strideTraces cs ov p idx ++
        chunkLoopT cs ov ps [] [] (idx + (strideChunks cs ov p).length)

/-- Instrumented `chunk_content`. -/
def chunkTraces (content : List Char) (cs ov : Nat) : List ChunkTrace :=
  if content = [] then [⟨0, [], [], false⟩]
  else chunkLoopT cs ov (pySplitBlank content) [] [] 0

/-- The non-whitespace characters of a string, in order. -/
def filterNW (l : List Char) : List Char := l.filter (fun c => !isPySpace c)

theorem filterNW_append (a b : List Char) : filterNW (a ++ b) = filterNW a ++ filterNW b := by
  simp [filterNW]

theorem filterNW_blankSep : filterNW blankSep = [] := rfl

theorem enumFrom_map_val {α β : Type} (f : α → β) :
    ∀ (n : Nat) (t : List α), (t.enumFrom n).map (fun p => f p.2) = t.map f := by
  intro n t
  induction t generalizing n with
  | nil => rfl
  | cons a t ih => simp [List.enumFrom, ih]

theorem pyStrip_eq_nil_ws (l : List Char) (h : pyStrip l = []) :
    ∀ c ∈ l, isPySpace c := by
  unfold pyStrip at h
  rw [List.reverse_eq_nil_iff, List.dropWhile_eq_nil_iff] at h
  have h3 : ∀ c ∈ l.dropWhile isPySpace, isPySpace c := by
    intro c hc
    exact h c (List.mem_reverse.mpr hc)
  intro c hc
  rw [← List.takeWhile_append_dropWhile isPySpace l] at hc
  rcases List.mem_append.mp hc with hc | hc
  · exact List.mem_takeWhile_imp hc
  · exact h3 c hc

theorem filterNW_nil_of_ws (l : List Char) (h : ∀ c ∈ l, isPySpace c) :
    filterNW l = [] := by
  rw [filterNW, List.filter_eq_nil_iff]
  intro a ha
  simp [h a ha]

theorem filterNW_dropWhile (l : List Char) :
    filterNW (l.dropWhile isPySpace) = filterNW l := by
  conv_rhs => rw [← List.takeWhile_append_dropWhile isPySpace l]
  rw [filterNW_append]
  rw [filterNW_nil_of_ws _ (fun c hc => List.mem_takeWhile_imp hc)]
  simp

theorem filterNW_reverse (l : List Char) : filterNW l.reverse = (filterNW l).reverse := by
  simp [filterNW]

theorem filterNW_pyStrip (l : List Char) : filterNW (pyStrip l) = filterNW l := by
  unfold pyStrip
  rw [filterNW_reverse, filterNW_dropWhile, filterNW_reverse, List.reverse_reverse,
    filterNW_dropWhile]

theorem blankMatchLen_ws (l : List Char) (m : Nat) (h : blankMatchLen l = some m) :
    ∀ c ∈ l.take m, isPySpace c := by
  cases l with
  | nil => simp [blankMatchLen] at h
  | cons c rest =>
    simp only [blankMatchLen] at h
    by_cases hc : c = '\n'
    · rw [if_pos hc] at h
      cases hj : lastNl (rest.takeWhile isPySpace) with
      | some j =>
        rw [hj] at h
        cases h
        intro x hx
        have hlt := lastNl_lt _ _ hj
        rw [List.take_succ_cons] at hx
        rcases List.mem_cons.mp hx with hx | hx
        · subst hx
          rw [hc]
          decide
        · have hxw : x ∈ (rest.takeWhile isPySpace).take (j + 1) := by
            have hr : rest = rest.takeWhile isPySpace ++ rest.dropWhile isPySpace :=
              (List.takeWhile_append_dropWhile isPySpace rest).symm
            rw [hr, List.take_append_of_le_length (by omega)] at hx
            exact hx
          exact List.mem_takeWhile_imp (List.mem_of_mem_take hxw)
      | none => rw [hj] at h; cases h
    · rw [if_neg hc] at h; cases h

theorem splitGoAux_filter :
    ∀ (fuel : Nat) (l acc : List Char), l.length ≤ fuel →
      filterNW (((splitGoAux fuel l acc).map (· ++ blankSep)).flatten)
        = filterNW acc.reverse ++ filterNW l := by
  intro fuel
  induction fuel with
  | zero =>
    intro l acc h
    have hl : l = [] := by
      cases l with
      | nil => rfl
      | cons a t => simp at h
    subst hl
    simp only [splitGoAux, List.map_cons, List.map_nil, List.flatten_cons, List.flatten_nil,
      List.append_nil, filterNW_append, filterNW_blankSep]
    simp [filterNW]
  | succ k ih =>
    intro l acc h
    cases l with
    | nil =>
      simp only [splitGoAux, List.map_cons, List.map_nil, List.flatten_cons, List.flatten_nil,
        List.append_nil, filterNW_append, filterNW_blankSep]
      simp [filterNW]
    | cons c rest =>
      simp only [splitGoAux]
      cases hm : blankMatchLen (c :: rest) with
      | some m =>
        have hb := blankMatchLen_bounds _ _ hm
        simp only [List.map_cons, List.flatten_cons, filterNW_append, filterNW_blankSep,
          List.append_nil]
        rw [ih ((c :: rest).drop m) [] (by
          simp only [List.length_drop, List.length_cons]
          simp only [List.length_cons] at hb h
          omega)]
        have hsplit : filterNW (c :: rest)
            = filterNW ((c :: rest).take m) ++ filterNW ((c :: rest).drop m) := by
          rw [← filterNW_append, List.take_append_drop]
        rw [hsplit, filterNW_nil_of_ws _ (blankMatchLen_ws _ _ hm)]
        simp [filterNW]
      | none =>
        rw [ih rest (c :: acc) (by simp at h ⊢; omega)]
        have h1 : filterNW (c :: acc).reverse = filterNW acc.reverse ++ filterNW [c] := by
          rw [List.reverse_cons, filterNW_append]
        have h2 : filterNW (c :: rest) = filterNW [c] ++ filterNW rest := by
          rw [show c :: rest = [c] ++ rest from rfl, filterNW_append]
        rw [h1, h2, List.append_assoc]

theorem pySplitBlank_filter (l : List Char) :
    filterNW (((pySplitBlank l).map (· ++ blankSep)).flatten) = filterNW l := by
  unfold pySplitBlank
  rw [splitGoAux_filter l.length l [] le_rfl]
  simp [filterNW]

theorem strideDrops_flatten (cs ov : Nat) (hov : ov < cs) :
    ∀ (k : Nat) (l : List Char), l.length ≤ k →
      ((strideChunks cs ov l).map (List.drop ov)).flatten = l.drop ov := by
  have hstep : 0 < cs - ov := by omega
  intro k
  induction k with
  | zero =>
    intro l h
    have hl : l = [] := by
      cases l with
      | nil => rfl
      | cons a t => simp at h
    subst hl
    simp [strideChunks, pyRangeUp_eq hstep 0 0]
  | succ k ih =>
    intro l h
    by_cases hne : l = []
    · subst hne
      simp [strideChunks, pyRangeUp_eq hstep 0 0]
    · rw [strideChunks_cons cs ov hov l hne]
      simp only [List.map_cons, List.flatten_cons]
      rw [ih (l.drop (cs - ov)) (by
        simp only [List.length_drop]
        have hp := List.length_pos.mpr hne
        omega)]
      have hc : ov + (cs - ov) = cs := by omega
      have h1 : (l.take cs).drop ov = (l.drop ov).take (cs - ov) := by
        rw [List.take_drop, hc]
      have h2 : (l.drop (cs - ov)).drop ov = (l.drop ov).drop (cs - ov) := by
        rw [List.drop_drop, List.drop_drop, Nat.add_comm]
      rw [h1, h2, List.take_append_drop]

theorem strideTraces_bodies (cs ov : Nat) (hov : ov < cs) (p : List Char) (idx : Nat)
    (hne : p ≠ []) :
    (((strideTraces cs ov p idx).map (fun t => t.body)).flatten) = p := by
  unfold strideTraces
  rw [strideChunks_cons cs ov hov p hne]
  simp only [List.map_cons, List.map_map, List.flatten_cons]
  have hmap : ((strideChunks cs ov (p.drop (cs - ov))).enumFrom (idx + 1)).map
      ((fun t : ChunkTrace => t.body) ∘ fun ji : Nat × List Char =>
        ⟨ji.1, ji.2.take ov, ji.2.drop ov, false⟩)
      = (strideChunks cs ov (p.drop (cs - ov))).map (List.drop ov) := by
    exact enumFrom_map_val (List.drop ov) (idx + 1) _
  rw [hmap, strideDrops_flatten cs ov hov (p.drop (cs - ov)).length _ le_rfl]
  have hc : (cs - ov) + ov = cs := by omega
  rw [List.drop_drop, hc, List.take_append_drop]

theorem strideTraces_yield (cs ov : Nat) (p : List Char) (idx : Nat) :
    (strideTraces cs ov p idx).map (fun t => (t.idx, yieldText t))
      = (strideChunks cs ov p).enumFrom idx := by
  unfold strideTraces
  cases hp : strideChunks cs ov p with
  | nil => rfl
  | cons h t =>
    simp only [List.map_cons, List.map_map, List.enumFrom, yieldText]
    congr 1
    refine Eq.trans (List.map_congr_left ?_) (List.map_id _)
    intro a ha
    simp [Function.comp, List.take_append_drop]

theorem chunkLoopT_agrees (cs ov : Nat) :
    ∀ (ps : List (List Char)) (seed body : List Char) (idx : Nat),
      (chunkLoopT cs ov ps seed body idx).map (fun t => (t.idx, yieldText t))
        = chunkLoop cs ov ps (seed ++ body) idx := by
  intro ps
  induction ps with
  | nil =>
    intro seed body idx
    simp only [chunkLoopT, chunkLoop]
    by_cases h : pyStrip (seed ++ body) ≠ []
    · simp [h, yieldText]
    · simp [h]
  | cons p ps ih =>
    intro seed body idx
    simp only [chunkLoopT, chunkLoop]
    by_cases h1 : (seed ++ body).length + p.length ≤ cs
    · simp only [if_pos h1]
      rw [ih]
      simp [List.append_assoc]
    · simp only [if_neg h1]
      by_cases h2 : seed ++ body ≠ []
      · simp only [if_pos h2, List.map_cons]
        rw [ih]
        have hy : yieldText ⟨idx, seed, body, true⟩ = pyStrip (seed ++ body) := by
          simp [yieldText]
        rw [hy]
        simp [List.append_assoc]
      · simp only [if_neg h2, List.map_append]
        rw [strideTraces_yield, ih]
        simp

theorem chunkLoopT_bodies (cs ov : Nat) (hov : ov < cs) :
    ∀ (ps : List (List Char)) (seed body : List Char) (idx : Nat),
      filterNW (((chunkLoopT cs ov ps seed body idx).map (fun t => t.body)).flatten)
        = filterNW body ++ filterNW ((ps.map (· ++ blankSep)).flatten) := by
  intro ps
  induction ps with
  | nil =>
    intro seed body idx
    simp only [chunkLoopT]
    by_cases h : pyStrip (seed ++ body) ≠ []
    · simp [h, filterNW]
    · rw [if_neg h]
      push_neg at h
      have hws := pyStrip_eq_nil_ws _ h
      have hbody : filterNW body = [] :=
        filterNW_nil_of_ws _ (fun c hc => hws c (List.mem_append.mpr (Or.inr hc)))
      simp only [List.map_nil, List.flatten_nil]
      rw [hbody]
      simp [filterNW]
  | cons p ps ih =>
    intro seed body idx
    simp only [chunkLoopT]
    by_cases h1 : (seed ++ body).length + p.length ≤ cs
    · rw [if_pos h1, ih]
      simp only [List.map_cons, List.flatten_cons, filterNW_append, filterNW_blankSep]
      simp [List.append_assoc]
    · rw [if_neg h1]
      by_cases h2 : seed ++ body ≠ []
      · rw [if_pos h2]
        simp only [List.map_cons, List.flatten_cons, filterNW_append]
        rw [ih]
        simp [List.append_assoc, filterNW_append, filterNW_blankSep]
      · rw [if_neg h2]
        push_neg at h2
        rcases List.append_eq_nil.mp h2 with ⟨hs, hb⟩
        subst hs
        subst hb
        have hplong : cs < p.length := by
          simp only [List.nil_append, List.length_nil] at h1
          omega
        have hpne : p ≠ [] := by
          intro hcon
          subst hcon
          simp at hplong
        simp only [List.map_append, List.flatten_append, filterNW_append]
        rw [strideTraces_bodies cs ov hov p idx hpne, ih]
        simp [List.append_assoc, filterNW_append, filterNW_blankSep,
          show filterNW ([] : List Char) = [] from rfl]

/-- C7: for every input and every overlap smaller than the chunk size, the
instrumented chunker agrees with `chunk_content` (same indices, same yielded
texts), and concatenating the chunk bodies — each yielded chunk's buffer
with its leading overlap seed removed — reconstructs the original content up
to whitespace: the non-whitespace character sequences coincide (paragraph
splitting replaces blank-line separators and the yields are trimmed, which
only moves whitespace). -/
theorem C7_reconstruction (content : List Char) (cs ov : Nat) (hov : ov < cs) :
    ((chunkTraces content cs ov).map (fun t => (t.idx, yieldText t))
        = chunk_content content cs ov) ∧
    filterNW (((chunkTraces content cs ov).map (fun t => t.body)).flatten)
        = filterNW content := by
  by_cases h : content = []
  · subst h
    constructor
    · rfl
    · rfl
  · unfold chunkTraces chunk_content
    rw [if_neg h, if_neg h]
    constructor
    · rw [chunkLoopT_agrees]
      rfl
    · rw [chunkLoopT_bodies cs ov hov]
      rw [pySplitBlank_filter]
      rfl

/-- C7 witness: the reconstruction theorem instantiated at the two-paragraph
input `"ab\n\ncd"` with the default chunk size 2000 and overlap 200. -/
theorem C7_reconstruction_witness :
    ((chunkTraces "ab\n\ncd".toList 2000 200).map (fun t => (t.idx, yieldText t))
        = chunk_content "ab\n\ncd".toList 2000 200) ∧
    filterNW (((chunkTraces "ab\n\ncd".toList 2000 200).map (fun t => t.body)).flatten)
        = filterNW "ab\n\ncd".toList :=
  C7_reconstruction "ab\n\ncd".toList 2000 200 (by omega)

/-! ### Decimal rendering (Python `str(n)` for the ids and metadata) -/

/-- Fuel-driven least-significant-first decimal digits, agreeing with
`Nat.digits 10` (the fuel makes the definition evaluate in the kernel). -/
def decDigitsAux : Nat → Nat → List Nat
  | 0, _ => []
  | fuel + 1, n => if n = 0 then [] else n % 10 :: decDigitsAux fuel (n / 10)

/-- Decimal digits of `n`, least significant first. -/
def decDigits (n : Nat) : List Nat := decDigitsAux n n

/-- Decimal rendering of a natural number, exactly Python `str(n)`. -/
def decStr (n : Nat) : List Char :=
  if n = 0 then ['0']
  else ((decDigits n).map (fun d => Char.ofNat (48 + d))).reverse

theorem decDigitsAux_eq :
    ∀ (fuel n : Nat), n ≤ fuel → decDigitsAux fuel n = Nat.digits 10 n := by
  intro fuel
  induction fuel with
  | zero =>
    intro n h
    have hn : n = 0 := by omega
    subst hn
    simp [decDigitsAux]
  | succ k ih =>
    intro n h
    by_cases hn : n = 0
    · subst hn; simp [decDigitsAux]
    · simp only [decDigitsAux, if_neg hn]
      have hdiv : n / 10 < n := Nat.div_lt_self (Nat.pos_of_ne_zero hn) (by norm_num)
      rw [ih (n / 10) (by omega)]
      rw [Nat.digits_def' (by norm_num : (1 : Nat) < 10) (Nat.pos_of_ne_zero hn)]

theorem decDigits_eq (n : Nat) : decDigits n = Nat.digits 10 n :=
  decDigitsAux_eq n n le_rfl

theorem charDigit_inj :
    ∀ d1 < 10, ∀ d2 < 10, Char.ofNat (48 + d1) = Char.ofNat (48 + d2) → d1 = d2 := by
  decide

theorem charDigit_bound :
    ∀ d < 10, 48 ≤ (Char.ofNat (48 + d)).toNat ∧ (Char.ofNat (48 + d)).toNat ≤ 57 := by
  decide

theorem map_digitChar_inj :
    ∀ (l1 l2 : List Nat), (∀ d ∈ l1, d < 10) → (∀ d ∈ l2, d < 10) →
      l1.map (fun d => Char.ofNat (48 + d)) = l2.map (fun d => Char.ofNat (48 + d)) →
      l1 = l2 := by
  intro l1
  induction l1 with
  | nil =>
    intro l2 _ _ h
    cases l2 with
    | nil => rfl
    | cons b u => simp at h
  | cons a t ih =>
    intro l2 h1 h2 h
    cases l2 with
    | nil => simp at h
    | cons b u =>
      simp only [List.map_cons, List.cons.injEq] at h
      have hab := charDigit_inj a (h1 a (by simp)) b (h2 b (by simp)) h.1
      subst hab
      rw [ih u (fun d hd => h1 d (by simp [hd])) (fun d hd => h2 d (by simp [hd])) h.2]

theorem decStr_inj : ∀ (m n : Nat), decStr m = decStr n → m = n := by
  have key : ∀ n : Nat, n ≠ 0 →
      ((decDigits n).map (fun d => Char.ofNat (48 + d))).reverse = ['0'] → False := by
    intro n hn h
    have hmap : (decDigits n).map (fun d => Char.ofNat (48 + d)) = ['0'] := by
      have := congrArg List.reverse h
      simpa using this
    rw [decDigits_eq] at hmap
    cases hd : Nat.digits 10 n with
    | nil => rw [hd] at hmap; simp at hmap
    | cons d t =>
      rw [hd] at hmap
      cases t with
      | nil =>
        simp only [List.map_cons, List.map_nil, List.cons.injEq] at hmap
        have hdlt : d < 10 := Nat.digits_lt_base (by norm_num) (by rw [hd]; simp)
        have hd0 : d = 0 := by
          refine charDigit_inj d hdlt 0 (by norm_num) ?_
          rw [hmap.1]
        subst hd0
        have h0 := Nat.ofDigits_digits 10 n
        rw [hd, Nat.ofDigits_cons, Nat.ofDigits_nil] at h0
        omega
      | cons d' t' => simp at hmap
  intro m n h
  unfold decStr at h
  by_cases hm : m = 0 <;> by_cases hn : n = 0
  · omega
  · rw [if_pos hm, if_neg hn] at h
    exact absurd (h.symm) (fun hc => key n hn hc)
  · rw [if_neg hm, if_pos hn] at h
    exact absurd h (fun hc => key m hm hc)
  · rw [if_neg hm, if_neg hn] at h
    have hmap := List.reverse_injective h
    have hdm : ∀ d ∈ decDigits m, d < 10 := by
      rw [decDigits_eq]
      intro d hd
      exact Nat.digits_lt_base (by norm_num) hd
    have hdn : ∀ d ∈ decDigits n, d < 10 := by
      rw [decDigits_eq]
      intro d hd
      exact Nat.digits_lt_base (by norm_num) hd
    have hdig := map_digitChar_inj _ _ hdm hdn hmap
    rw [decDigits_eq, decDigits_eq] at hdig
    have h1 := Nat.ofDigits_digits 10 m
    have h2 := Nat.ofDigits_digits 10 n
    rw [← h1, ← h2, hdig]

theorem decStr_digits_bound (n : Nat) :
    ∀ c ∈ decStr n, 48 ≤ c.toNat ∧ c.toNat ≤ 57 := by
  unfold decStr
  by_cases hn : n = 0
  · rw [if_pos hn]
    intro c hc
    simp only [List.mem_singleton] at hc
    subst hc
    decide
  · rw [if_neg hn]
    intro c hc
    rw [List.mem_reverse] at hc
    rcases List.mem_map.mp hc with ⟨d, hd, hcd⟩
    have hdlt : d < 10 := by
      rw [decDigits_eq] at hd
      exact Nat.digits_lt_base (by norm_num) hd
    rw [← hcd]
    exact charDigit_bound d hdlt

theorem decStr_ne_dash (n : Nat) : '-' ∉ decStr n := by
  intro h
  have hb := decStr_digits_bound n '-' h
  have h45 : ('-').toNat = 45 := rfl
  omega

theorem dashFree_append_cancel :
    ∀ (a a' b b' : List Char), '-' ∉ a → '-' ∉ a' →
      a ++ '-' :: b = a' ++ '-' :: b' → a = a' ∧ b = b' := by
  intro a
  induction a with
  | nil =>
    intro a' b b' _ h2 h
    cases a' with
    | nil =>
      simp only [List.nil_append, List.cons.injEq, true_and] at h
      exact ⟨rfl, h⟩
    | cons c t =>
      simp only [List.nil_append, List.cons_append, List.cons.injEq] at h
      refine absurd ?_ h2
      rw [← h.1]
      exact List.mem_cons_self '-' t
  | cons c t ih =>
    intro a' b b' h1 h2 h
    cases a' with
    | nil =>
      simp only [List.nil_append, List.cons_append, List.cons.injEq] at h
      refine absurd ?_ h1
      rw [h.1]
      exact List.mem_cons_self '-' t
    | cons c' t' =>
      simp only [List.cons_append, List.cons.injEq] at h
      obtain ⟨hc, ht⟩ := h
      subst hc
      obtain ⟨h3, h4⟩ := ih t' b b' (fun hm => h1 (List.mem_cons_of_mem _ hm))
        (fun hm => h2 (List.mem_cons_of_mem _ hm)) ht
      exact ⟨by rw [h3], h4⟩

/-! ### Document-to-record mapper (`process_pdf`) -/

/-- Python-style string alias used by the mapper. -/
abbrev Str := List Char

/-- Truncation limit in `generate_embedding` ("max_chars = 30000"). -/
def EMBED_MAX_CHARS : Nat := 30000

/-- Model of `generate_embedding`: empty or whitespace-only text returns
None; long text is truncated to 30000 characters; the retried embedding
call's errors of every kind are caught (and logged) with None returned. -/
def generate_embedding (call : Str → Nat → Except PyExc (List Int)) (text : Str) :
    Option (List Int) :=
  if pyStrip text = [] then none
  else
    let t := if EMBED_MAX_CHARS < text.length then text.take EMBED_MAX_CHARS else text
    match (_call_embedding_api (call t)).1 with
    | .ok v => some v
    | .error _ => none

/-- Model of `generate_image_description`: an empty or whitespace-only
response is logged and turned into `""`; every caught exception (after the
retried call) also yields `""`. -/
def generate_image_description (call : Str → Nat → Except PyExc Str) (image_base64 : Str) :
    Str :=
  match (_call_vision_api (call image_base64)).1 with
  | .ok r => if pyStrip r = [] then [] else r
  | .error _ => []

/-- `json.dumps({"source": "document_intelligence", "format": "markdown"})`. -/
def contentMetadata : Str :=
  "\x7b\"source\": \"document_intelligence\", \"format\": \"markdown\"\x7d".toList

/-- `json.dumps({"source": "document_intelligence", "rows": r, "columns": c})`. -/
def tableMetadata (rows cols : Nat) : Str :=
  "\x7b\"source\": \"document_intelligence\", \"rows\": ".toList ++ decStr rows
    ++ ", \"columns\": ".toList ++ decStr cols ++ "\x7d".toList

/-- `json.dumps({"source": "image_extraction", "extension": e, "size": s})`. -/
def imageMetadata (ext : Str) (size : Nat) : Str :=
  "\x7b\"source\": \"image_extraction\", \"extension\": \"".toList ++ ext
    ++ "\", \"size\": ".toList ++ decStr size ++ "\x7d".toList

/-- A Document Intelligence table as the external analysis returns it. -/
structure RawTable where
  page_number : Nat
  row_count : Nat
  column_count : Nat
  markdown : Str
  deriving Repr, DecidableEq

/-- One entry of `extracted["tables"]` (index assigned by enumeration). -/
structure TableData where
  index : Nat
  page_number : Nat
  row_count : Nat
  column_count : Nat
  markdown : Str
  deriving Repr, DecidableEq

/-- One image as PyMuPDF extracts it from a page (`size` is the byte count
of the raw image data, `base64` its base64 rendering). -/
structure RawImage where
  extension : Str
  base64 : Str
  size : Nat
  deriving Repr, DecidableEq

/-- One entry of the list returned by `extract_images_from_pdf`. -/
structure ImageData where
  page_number : Nat
  index : Nat
  extension : Str
  base64 : Str
  size : Nat
  deriving Repr, DecidableEq

/-- One search record built by `process_pdf`.  `created_at` is always None
in the source and is omitted; a vector field holds `none` when the source
dict has no such key (the source omits absent vectors rather than storing
null). -/
structure SearchDoc where
  id : Str
  document_id : Str
  file_name : Str
  file_path : Str
  blob_url : Str
  page_number : Nat
  chunk_index : Nat
  chunk_type : Str
  content : Str
  content_markdown : Option Str
  table_markdown : Option Str
  image_description : Option Str
  image_base64 : Option Str
  metadata : Str
  citation : Str
  content_vector : Option (List Int)
  table_vector : Option (List Int)
  image_vector : Option (List Int)
  deriving Repr, DecidableEq

/-- Model of the `extracted["tables"]` list built by
`extract_document_content`: each table of the external analysis result is
enumerated in order, the enumeration position becoming its `index`. -/
def extract_tables (rawTables : List RawTable) : List TableData :=
  rawTables.enum.map (fun it =>
    { index := it.1, page_number := it.2.page_number, row_count := it.2.row_count,
      column_count := it.2.column_count, markdown := it.2.markdown })

/-- Model of `extract_images_from_pdf`: pages are enumerated starting at 1
(`enumerate(doc, start=1)`), images within a page's `get_images()` list from
0; the extension, base64 text and byte size come from the extracted image. -/
def extract_images_from_pdf (pages : List (List RawImage)) : List ImageData :=
  (pages.enumFrom 1).flatMap (fun pp =>
    (pp.2.enum).map (fun ii =>
      { page_number := pp.1, index := ii.1, extension := ii.2.extension,
        base64 := ii.2.base64, size := ii.2.size }))

/-- Python truthiness of `generate_embedding`'s result (`if embedding:`):
true only for a non-empty vector. -/
def truthyVec : Option (List Int) → Bool
  | some (_ :: _) => true
  | _ => false

/-- The `if embedding_client and embedding_deployment:` block of the
content-chunk loop: when the embedding backend is configured and the
generated embedding is truthy, store it in `content_vector`; otherwise
leave the record unchanged. -/
def attachContentVec (embed : Option (Str → Nat → Except PyExc (List Int)))
    (text : Str) (base : SearchDoc) : SearchDoc :=
  match embed with
  | none => base
  | some call =>
    let emb := generate_embedding call text
    if truthyVec emb then { base with content_vector := emb } else base

/-- The embedding block of the table loop: a truthy embedding is dual-stored
in `content_vector` and `table_vector`. -/
def attachTableVec (embed : Option (Str → Nat → Except PyExc (List Int)))
    (text : Str) (base : SearchDoc) : SearchDoc :=
  match embed with
  | none => base
  | some call =>
    let emb := generate_embedding call text
    if truthyVec emb then { base with content_vector := emb, table_vector := emb } else base

/-- The embedding block of the image loop: guarded additionally by the
truthiness of the description; a truthy embedding is dual-stored in
`content_vector` and `image_vector`. -/
def attachImageVec (embed : Option (Str → Nat → Except PyExc (List Int)))
    (description : Str) (base : SearchDoc) : SearchDoc :=
  match embed with
  | none => base
  | some call =>
    if description ≠ [] then
      let emb := generate_embedding call description
      if truthyVec emb then { base with content_vector := emb, image_vector := emb }
      else base
    else base

/-- One content-chunk record (the body of the loop at create_index.py
lines 617-647): the embedding, when configured and truthy, goes into
`content_vector` only. -/
def contentDoc (document_id file_name file_path blob_url : Str)
    (embed : Option (Str → Nat → Except PyExc (List Int)))
    (chunk : Nat × Str) : SearchDoc :=
  attachContentVec embed chunk.2
    { id := document_id ++ "-content-".toList ++ decStr chunk.1
      document_id := document_id
      file_name := file_name
      file_path := file_path
      blob_url := blob_url
      page_number := 1
      chunk_index := chunk.1
      chunk_type := "content".toList
      content := chunk.2
      content_markdown := some chunk.2
      table_markdown := none
      image_description := none
      image_base64 := none
      metadata := contentMetadata
      citation := "[".toList ++ file_name ++ "](".toList ++ blob_url ++ ")".toList
      content_vector := none
      table_vector := none
      image_vector := none }

/-- One table record (lines 650-687): the embedding, when configured and
truthy, is dual-stored in `content_vector` and `table_vector`. -/
def tableDoc (document_id file_name file_path blob_url : Str)
    (embed : Option (Str → Nat → Except PyExc (List Int)))
    (t : TableData) : SearchDoc :=
  attachTableVec embed t.markdown
    { id := document_id ++ "-table-".toList ++ decStr t.index
      document_id := document_id
      file_name := file_name
      file_path := file_path
      blob_url := blob_url
      page_number := t.page_number
      chunk_index := t.index
      chunk_type := "table".toList
      content := t.markdown
      content_markdown := none
      table_markdown := some t.markdown
      image_description := none
      image_base64 := none
      metadata := tableMetadata t.row_count t.column_count
      citation := "[".toList ++ file_name ++ "](".toList ++ blob_url
        ++ ") - Page ".toList ++ decStr t.page_number
      content_vector := none
      table_vector := none
      image_vector := none }

/-- One image record (lines 692-751): the id embeds the page number
(`{document_id}-image-p{page}-{index}`); `image_base64` is truncated to its
first 1000 characters plus `"..."` when longer than 1000; the embedding is
generated from the description only when the description is non-empty, and
is dual-stored in `content_vector` and `image_vector`. -/
def imageDoc (document_id file_name file_path blob_url : Str)
    (vision : Str → Nat → Except PyExc Str)
    (embed : Option (Str → Nat → Except PyExc (List Int)))
    (img : ImageData) : SearchDoc :=
  let description := generate_image_description vision img.base64
  attachImageVec embed description
    { id := document_id ++ "-image-p".toList ++ decStr img.page_number
        ++ "-".toList ++ decStr img.index
      document_id := document_id
      file_name := file_name
      file_path := file_path
      blob_url := blob_url
      page_number := img.page_number
      chunk_index := img.index
      chunk_type := "image".toList
      content := description
      content_markdown := none
      table_markdown := none
      image_description := some description
      image_base64 := some (if 1000 < img.base64.length
        then img.base64.take 1000 ++ "...".toList else img.base64)
      metadata := imageMetadata img.extension img.size
      citation := "[".toList ++ file_name ++ "](".toList ++ blob_url
        ++ ") - Page ".toList ++ decStr img.page_number
      content_vector := none
      table_vector := none
      image_vector := none }

/-- Model of `process_pdf` (success path): the blob upload URL and the
extraction results are supplied by the external collaborators (blob
storage, Document Intelligence, PyMuPDF); `md5hex` models
`hashlib.md5(...).hexdigest()`, of which the first 16 characters form the
document id.  Content chunks use the chunker's defaults (2000, 200); images
are processed only when enabled and a vision client and deployment are
configured, and images below 5000 bytes are skipped. -/
def process_pdf (md5hex : Str → Str) (file_path file_name blob_url : Str)
    (content : Str) (rawTables : List RawTable) (pages : List (List RawImage))
    (vision : Option (Str → Nat → Except PyExc Str))
    (embed : Option (Str → Nat → Except PyExc (List Int)))
    (include_images : Bool) : List SearchDoc :=
  let document_id := (md5hex file_path).take 16
  let contentDocs := (chunk_content content 2000 200).map
    (contentDoc document_id file_name file_path blob_url embed)
  let tableDocs := (extract_tables rawTables).map
    (tableDoc document_id file_name file_path blob_url embed)
  let imageDocs :=
    match include_images, vision with
    | true, some v =>
      ((extract_images_from_pdf pages).filter (fun img => !(img.size < 5000))).map
        (imageDoc document_id file_name file_path blob_url v embed)
    | _, _ => []
  contentDocs ++ tableDocs ++ imageDocs

theorem attachContentVec_proj (embed : Option (Str → Nat → Except PyExc (List Int)))
    (text : Str) (base : SearchDoc) :
    (attachContentVec embed text base).id = base.id ∧
    (attachContentVec embed text base).chunk_type = base.chunk_type ∧
    (attachContentVec embed text base).chunk_index = base.chunk_index ∧
    (attachContentVec embed text base).page_number = base.page_number ∧
    (attachContentVec embed text base).image_base64 = base.image_base64 := by
  unfold attachContentVec
  cases embed with
  | none => exact ⟨rfl, rfl, rfl, rfl, rfl⟩
  | some call =>
    by_cases h : truthyVec (generate_embedding call text) = true <;>
      simp [h]

theorem attachTableVec_proj (embed : Option (Str → Nat → Except PyExc (List Int)))
    (text : Str) (base : SearchDoc) :
    (attachTableVec embed text base).id = base.id ∧
    (attachTableVec embed text base).chunk_type = base.chunk_type ∧
    (attachTableVec embed text base).chunk_index = base.chunk_index ∧
    (attachTableVec embed text base).page_number = base.page_number ∧
    (attachTableVec embed text base).image_base64 = base.image_base64 := by
  unfold attachTableVec
  cases embed with
  | none => exact ⟨rfl, rfl, rfl, rfl, rfl⟩
  | some call =>
    by_cases h : truthyVec (generate_embedding call text) = true <;>
      simp [h]

theorem attachImageVec_proj (embed : Option (Str → Nat → Except PyExc (List Int)))
    (description : Str) (base : SearchDoc) :
    (attachImageVec embed description base).id = base.id ∧
    (attachImageVec embed description base).chunk_type = base.chunk_type ∧
    (attachImageVec embed description base).chunk_index = base.chunk_index ∧
    (attachImageVec embed description base).page_number = base.page_number ∧
    (attachImageVec embed description base).image_base64 = base.image_base64 := by
  unfold attachImageVec
  cases embed with
  | none => exact ⟨rfl, rfl, rfl, rfl, rfl⟩
  | some call =>
    by_cases hd : description ≠ []
    · by_cases h : truthyVec (generate_embedding call description) = true <;>
        simp [hd, h]
    · simp [hd]

/-- A failing embedding backend (rate-limited on every attempt) yields None
for every input text: either the text is blank, or the retried call errors
and the exception is caught. -/
theorem generate_embedding_fail (text : Str) :
    generate_embedding (fun _ _ => .error .rateLimitError) text = none := by
  unfold generate_embedding
  by_cases h : pyStrip text = []
  · simp [h]
  · simp [h, _call_embedding_api, RETRY_ATTEMPTS, retryCall, isTransient]

theorem attachContentVec_fail (text : Str) (base : SearchDoc) :
    attachContentVec (some (fun _ _ => .error .rateLimitError)) text base = base := by
  unfold attachContentVec
  simp [generate_embedding_fail, truthyVec]

theorem attachTableVec_fail (text : Str) (base : SearchDoc) :
    attachTableVec (some (fun _ _ => .error .rateLimitError)) text base = base := by
  unfold attachTableVec
  simp [generate_embedding_fail, truthyVec]

theorem attachImageVec_fail (description : Str) (base : SearchDoc) :
    attachImageVec (some (fun _ _ => .error .rateLimitError)) description base = base := by
  unfold attachImageVec
  by_cases hd : description ≠ [] <;> simp [hd, generate_embedding_fail, truthyVec]

/-- With no embedding backend, no record of `process_pdf` carries any
vector. -/
theorem process_pdf_none_vectors (md5hex : Str → Str) (fp fn bu content : Str)
    (rawTables : List RawTable) (pages : List (List RawImage))
    (vision : Option (Str → Nat → Except PyExc Str)) (inc : Bool) :
    ∀ d ∈ process_pdf md5hex fp fn bu content rawTables pages vision none inc,
      d.content_vector = none ∧ d.table_vector = none ∧ d.image_vector = none := by
  intro d hd
  simp only [process_pdf] at hd
  rcases List.mem_append.mp hd with h | h
  · rcases List.mem_append.mp h with h | h
    · rcases List.mem_map.mp h with ⟨ch, _, hde⟩
      rw [← hde]
      exact ⟨rfl, rfl, rfl⟩
    · rcases List.mem_map.mp h with ⟨t, _, hde⟩
      rw [← hde]
      exact ⟨rfl, rfl, rfl⟩
  · cases inc with
    | false => simp at h
    | true =>
      cases vision with
      | none => simp at h
      | some v =>
        rcases List.mem_map.mp h with ⟨img, _, hde⟩
        rw [← hde]
        exact ⟨rfl, rfl, rfl⟩

/-- A record builder applied with the always-failing embedding backend
produces the same record as with no backend at all. -/
theorem process_pdf_embed_fail_eq (md5hex : Str → Str) (fp fn bu content : Str)
    (rawTables : List RawTable) (pages : List (List RawImage))
    (vision : Option (Str → Nat → Except PyExc Str)) (inc : Bool) :
    process_pdf md5hex fp fn bu content rawTables pages vision
        (some (fun _ _ => .error .rateLimitError)) inc
      = process_pdf md5hex fp fn bu content rawTables pages vision none inc := by
  simp only [process_pdf]
  congr 1
  · congr 1
    · refine List.map_congr_left ?_
      intro ch _
      unfold contentDoc
      rw [attachContentVec_fail]
      rfl
    · refine List.map_congr_left ?_
      intro t _
      unfold tableDoc
      rw [attachTableVec_fail]
      rfl
  · cases inc with
    | false => rfl
    | true =>
      cases vision with
      | none => rfl
      | some v =>
        refine List.map_congr_left ?_
        intro img _
        unfold imageDoc
        rw [attachImageVec_fail]
        rfl

/-- C4: with an embedding backend configured that raises rate-limited on
every one of the 3 bounded attempts, the mapper emits exactly the records it
would emit with no embedding backend — in particular every record, content
records included, is still emitted and carries no `content_vector` (nor any
other vector), and the document is not failed; the retried embedding call
indeed makes all 3 attempts before the rate-limit error is caught. -/
theorem C4_embedding_failure_degrades (md5hex : Str → Str) (fp fn bu content : Str)
    (rawTables : List RawTable) (pages : List (List RawImage))
    (vision : Option (Str → Nat → Except PyExc Str)) (inc : Bool) :
    (process_pdf md5hex fp fn bu content rawTables pages vision
        (some (fun _ _ => .error .rateLimitError)) inc
      = process_pdf md5hex fp fn bu content rawTables pages vision none inc) ∧
    (∀ d ∈ process_pdf md5hex fp fn bu content rawTables pages vision
        (some (fun _ _ => .error .rateLimitError)) inc,
      d.content_vector = none ∧ d.table_vector = none ∧ d.image_vector = none) ∧
    (retryCall isTransient
        (fun _ => (.error .rateLimitError : Except PyExc (List Int))) RETRY_ATTEMPTS 0
      = (.error .rateLimitError, 3)) := by
  refine ⟨process_pdf_embed_fail_eq md5hex fp fn bu content rawTables pages vision inc,
    ?_, by rfl⟩
  intro d hd
  rw [process_pdf_embed_fail_eq md5hex fp fn bu content rawTables pages vision inc] at hd
  exact process_pdf_none_vectors md5hex fp fn bu content rawTables pages vision inc d hd

/-- C4 witness: the degradation theorem instantiated at a one-chunk document
(content `"hello"`, no tables, no images), with the membership conjunct
evaluated at its content record. -/
theorem C4_embedding_failure_degrades_witness :
    (process_pdf (fun _ => "d0123456789abcdef".toList) "f.pdf".toList "f.pdf".toList
        "u".toList "hello".toList [] [] none
        (some (fun _ _ => .error .rateLimitError)) true
      = process_pdf (fun _ => "d0123456789abcdef".toList) "f.pdf".toList "f.pdf".toList
        "u".toList "hello".toList [] [] none none true) ∧
    (∀ d ∈ process_pdf (fun _ => "d0123456789abcdef".toList) "f.pdf".toList "f.pdf".toList
        "u".toList "hello".toList [] [] none
        (some (fun _ _ => .error .rateLimitError)) true,
      d.content_vector = none ∧ d.table_vector = none ∧ d.image_vector = none) ∧
    (retryCall isTransient
        (fun _ => (.error .rateLimitError : Except PyExc (List Int))) RETRY_ATTEMPTS 0
      = (.error .rateLimitError, 3)) :=
  C4_embedding_failure_degrades (fun _ => "d0123456789abcdef".toList) "f.pdf".toList
    "f.pdf".toList "u".toList "hello".toList [] [] none true

theorem contentDoc_fields (docid fn fp bu : Str)
    (embed : Option (Str → Nat → Except PyExc (List Int))) (ch : Nat × Str) :
    (contentDoc docid fn fp bu embed ch).id = docid ++ "-content-".toList ++ decStr ch.1 ∧
    (contentDoc docid fn fp bu embed ch).chunk_type = "content".toList ∧
    (contentDoc docid fn fp bu embed ch).chunk_index = ch.1 := by
  unfold contentDoc
  refine ⟨?_, ?_, ?_⟩
  · rw [(attachContentVec_proj _ _ _).1]
  · rw [(attachContentVec_proj _ _ _).2.1]
  · rw [(attachContentVec_proj _ _ _).2.2.1]

theorem tableDoc_fields (docid fn fp bu : Str)
    (embed : Option (Str → Nat → Except PyExc (List Int))) (t : TableData) :
    (tableDoc docid fn fp bu embed t).id = docid ++ "-table-".toList ++ decStr t.index ∧
    (tableDoc docid fn fp bu embed t).chunk_type = "table".toList ∧
    (tableDoc docid fn fp bu embed t).chunk_index = t.index := by
  unfold tableDoc
  refine ⟨?_, ?_, ?_⟩
  · rw [(attachTableVec_proj _ _ _).1]
  · rw [(attachTableVec_proj _ _ _).2.1]
  · rw [(attachTableVec_proj _ _ _).2.2.1]

theorem imageDoc_fields (docid fn fp bu : Str) (vision : Str → Nat → Except PyExc Str)
    (embed : Option (Str → Nat → Except PyExc (List Int))) (img : ImageData) :
    (imageDoc docid fn fp bu vision embed img).id
      = docid ++ "-image-p".toList ++ decStr img.page_number
        ++ "-".toList ++ decStr img.index ∧
    (imageDoc docid fn fp bu vision embed img).chunk_type = "image".toList ∧
    (imageDoc docid fn fp bu vision embed img).chunk_index = img.index ∧
    (imageDoc docid fn fp bu vision embed img).page_number = img.page_number ∧
    (imageDoc docid fn fp bu vision embed img).image_base64
      = some (if 1000 < img.base64.length
        then img.base64.take 1000 ++ "...".toList else img.base64) := by
  unfold imageDoc
  refine ⟨?_, ?_, ?_, ?_, ?_⟩
  · rw [(attachImageVec_proj _ _ _).1]
  · rw [(attachImageVec_proj _ _ _).2.1]
  · rw [(attachImageVec_proj _ _ _).2.2.1]
  · rw [(attachImageVec_proj _ _ _).2.2.2.1]
  · rw [(attachImageVec_proj _ _ _).2.2.2.2]

theorem process_pdf_mem (md5hex : Str → Str) (fp fn bu content : Str)
    (rawTables : List RawTable) (pages : List (List RawImage))
    (vision : Option (Str → Nat → Except PyExc Str))
    (embed : Option (Str → Nat → Except PyExc (List Int))) (inc : Bool) :
    ∀ d ∈ process_pdf md5hex fp fn bu content rawTables pages vision embed inc,
      (∃ ch ∈ chunk_content content 2000 200,
        d = contentDoc ((md5hex fp).take 16) fn fp bu embed ch) ∨
      (∃ t ∈ extract_tables rawTables,
        d = tableDoc ((md5hex fp).take 16) fn fp bu embed t) ∨
      (∃ v, vision = some v ∧ inc = true ∧
        ∃ img ∈ extract_images_from_pdf pages, 5000 ≤ img.size ∧
          d = imageDoc ((md5hex fp).take 16) fn fp bu v embed img) := by
  intro d hd
  simp only [process_pdf] at hd
  rcases List.mem_append.mp hd with h | h
  · rcases List.mem_append.mp h with h | h
    · left
      rcases List.mem_map.mp h with ⟨ch, hch, hde⟩
      exact ⟨ch, hch, hde.symm⟩
    · right; left
      rcases List.mem_map.mp h with ⟨t, ht, hde⟩
      exact ⟨t, ht, hde.symm⟩
  · right; right
    cases inc with
    | false => simp at h
    | true =>
      cases vision with
      | none => simp at h
      | some v =>
        rcases List.mem_map.mp h with ⟨img, himg, hde⟩
        have hmem := List.mem_of_mem_filter himg
        have hsize : ¬ img.size < 5000 := by
          have hp := List.of_mem_filter himg
          simpa using hp
        exact ⟨v, rfl, rfl, img, hmem, by omega, hde.symm⟩

/-- C8: every image-kind record produced by `process_pdf` comes from an
extracted image of size at least 5000 bytes (and from an enabled image
path); images below the threshold are skipped in the loop and produce no
record — content and table records carry the other chunk types. -/
theorem C8_min_image_size (md5hex : Str → Str) (fp fn bu content : Str)
    (rawTables : List RawTable) (pages : List (List RawImage))
    (vision : Option (Str → Nat → Except PyExc Str))
    (embed : Option (Str → Nat → Except PyExc (List Int))) (inc : Bool) :
    ∀ d ∈ process_pdf md5hex fp fn bu content rawTables pages vision embed inc,
      d.chunk_type = "image".toList →
      ∃ v, vision = some v ∧ inc = true ∧
        ∃ img ∈ extract_images_from_pdf pages, 5000 ≤ img.size ∧
          d = imageDoc ((md5hex fp).take 16) fn fp bu v embed img := by
  intro d hd htype
  rcases process_pdf_mem md5hex fp fn bu content rawTables pages vision embed inc d hd with
    ⟨ch, _, hde⟩ | ⟨t, _, hde⟩ | h
  · exfalso
    rw [hde, (contentDoc_fields _ _ _ _ _ _).2.1] at htype
    exact absurd htype (by decide)
  · exfalso
    rw [hde, (tableDoc_fields _ _ _ _ _ _).2.1] at htype
    exact absurd htype (by decide)
  · exact h

/-- C8 witness: the minimum-size theorem instantiated at a document with one
5000-byte image, evaluated at its image record. -/
theorem C8_min_image_size_witness :
    ∃ v, (some (fun (_ : Str) (_ : Nat) => (.ok "desc".toList : Except PyExc Str)))
        = some v ∧ true = true ∧
      ∃ img ∈ extract_images_from_pdf [[⟨"png".toList, "AAAA".toList, 5000⟩]],
        5000 ≤ img.size ∧
        imageDoc (("d".toList : Str).take 16) "f".toList "f".toList "u".toList
            (fun _ _ => .ok "desc".toList) none ⟨1, 0, "png".toList, "AAAA".toList, 5000⟩
          = imageDoc ((("d".toList : Str)).take 16) "f".toList "f".toList "u".toList v none img := by
  have h := C8_min_image_size (fun _ => "d".toList) "f".toList "f".toList "u".toList
    "x".toList [] [[⟨"png".toList, "AAAA".toList, 5000⟩]]
    (some (fun _ _ => .ok "desc".toList)) none true
    (imageDoc (("d".toList : Str).take 16) "f".toList "f".toList "u".toList
      (fun _ _ => .ok "desc".toList) none ⟨1, 0, "png".toList, "AAAA".toList, 5000⟩)
    (by decide) (by decide)
  exact h

/-- C9 (amended): in every produced image record, `image_base64` holds the
full base64 string when it is at most 1000 characters long, and otherwise
the first 1000 characters followed by `"..."` (1003 characters in total),
not the bare 1000-character truncation. -/
theorem C9_image_base64_truncation (md5hex : Str → Str) (fp fn bu content : Str)
    (rawTables : List RawTable) (pages : List (List RawImage))
    (vision : Option (Str → Nat → Except PyExc Str))
    (embed : Option (Str → Nat → Except PyExc (List Int))) (inc : Bool) :
    ∀ d ∈ process_pdf md5hex fp fn bu content rawTables pages vision embed inc,
      d.chunk_type = "image".toList →
      ∃ img ∈ extract_images_from_pdf pages,
        d.image_base64 = some (if 1000 < img.base64.length
          then img.base64.take 1000 ++ "...".toList else img.base64) := by
  intro d hd htype
  rcases process_pdf_mem md5hex fp fn bu content rawTables pages vision embed inc d hd with
    ⟨ch, _, hde⟩ | ⟨t, _, hde⟩ | ⟨v, _, _, img, himg, _, hde⟩
  · exfalso
    rw [hde, (contentDoc_fields _ _ _ _ _ _).2.1] at htype
    exact absurd htype (by decide)
  · exfalso
    rw [hde, (tableDoc_fields _ _ _ _ _ _).2.1] at htype
    exact absurd htype (by decide)
  · refine ⟨img, himg, ?_⟩
    rw [hde, (imageDoc_fields _ _ _ _ _ _ _).2.2.2.2]

/-- C9 witness: the truncation theorem instantiated at a document with one
large image (1001-character base64), evaluated at its image record. -/
theorem C9_image_base64_truncation_witness :
    ∃ img ∈ extract_images_from_pdf [[⟨"png".toList, List.replicate 1001 'a', 6000⟩]],
      (imageDoc (("d".toList : Str).take 16) "f".toList "f".toList "u".toList
          (fun _ _ => .ok "desc".toList) none
          ⟨1, 0, "png".toList, List.replicate 1001 'a', 6000⟩).image_base64
        = some (if 1000 < img.base64.length
          then img.base64.take 1000 ++ "...".toList else img.base64) := by
  have h := C9_image_base64_truncation (fun _ => "d".toList) "f".toList "f".toList
    "u".toList "x".toList [] [[⟨"png".toList, List.replicate 1001 'a', 6000⟩]]
    (some (fun _ _ => .ok "desc".toList)) none true
    (imageDoc (("d".toList : Str).take 16) "f".toList "f".toList "u".toList
      (fun _ _ => .ok "desc".toList) none ⟨1, 0, "png".toList, List.replicate 1001 'a', 6000⟩)
    (by decide) (by decide)
  exact h

/-- C9 counterexample: for an image whose base64 string has 1001 characters,
the stored `image_base64` is the first 1000 characters plus `"..."` — 1003
characters — and not the base64 string truncated to 1000 characters as the
claim states. -/
theorem C9_counterexample :
    ((process_pdf (fun _ => "d".toList) "f".toList "f".toList "u".toList
        [] [] [[⟨"png".toList, List.replicate 1001 'a', 6000⟩]]
        (some (fun _ _ => .ok "desc".toList)) none true).filter
        (fun d => d.chunk_type = "image".toList)).map (fun d => d.image_base64)
      = [some (List.replicate 1000 'a' ++ "...".toList)] ∧
    (List.replicate 1000 'a' ++ "...".toList).length = 1003 ∧
    ((List.replicate 1001 'a').take 1000).length = 1000 ∧
    some (List.replicate 1000 'a' ++ "...".toList)
      ≠ some ((List.replicate 1001 'a').take 1000) := by
  refine ⟨by decide, by decide, by decide, by decide⟩

/-! ### Record-id uniqueness (claim C3) -/

theorem contentSep_eq : ("-content-".toList : Str)
    = ['-', 'c', 'o', 'n', 't', 'e', 'n', 't', '-'] := rfl

theorem tableSep_eq : ("-table-".toList : Str) = ['-', 't', 'a', 'b', 'l', 'e', '-'] := rfl

theorem imageSep_eq : ("-image-p".toList : Str)
    = ['-', 'i', 'm', 'a', 'g', 'e', '-', 'p'] := rfl

theorem contentId_inj (docid : Str) :
    Function.Injective (fun i => docid ++ "-content-".toList ++ decStr i) := by
  intro a b h
  simp only [List.append_assoc] at h
  have h2 := List.append_cancel_left h
  have h3 := List.append_cancel_left h2
  exact decStr_inj _ _ h3

theorem tableId_inj (docid : Str) :
    Function.Injective (fun j => docid ++ "-table-".toList ++ decStr j) := by
  intro a b h
  simp only [List.append_assoc] at h
  have h2 := List.append_cancel_left h
  have h3 := List.append_cancel_left h2
  exact decStr_inj _ _ h3

theorem imageId_inj (docid : Str) :
    Function.Injective (fun pr : Nat × Nat =>
      docid ++ "-image-p".toList ++ decStr pr.1 ++ "-".toList ++ decStr pr.2) := by
  intro a b h
  simp only [List.append_assoc] at h
  have h2 := List.append_cancel_left h
  have h3 := List.append_cancel_left h2
  rw [show ("-".toList : Str) = ['-'] from rfl, List.singleton_append,
    List.singleton_append] at h3
  obtain ⟨hp, hq⟩ := dashFree_append_cancel _ _ _ _
    (decStr_ne_dash a.1) (decStr_ne_dash b.1) h3
  have h4 := decStr_inj _ _ hp
  have h5 := decStr_inj _ _ hq
  exact Prod.ext h4 h5

theorem contentId_ne_tableId (docid : Str) (i j : Nat) :
    docid ++ "-content-".toList ++ decStr i ≠ docid ++ "-table-".toList ++ decStr j := by
  intro h
  simp only [List.append_assoc] at h
  have h2 := List.append_cancel_left h
  rw [contentSep_eq, tableSep_eq] at h2
  simp only [List.cons_append, List.nil_append] at h2
  injection h2 with h3 h4
  injection h4 with h5 h6
  exact absurd h5 (by decide)

theorem contentId_ne_imageId (docid : Str) (i p q : Nat) :
    docid ++ "-content-".toList ++ decStr i
      ≠ docid ++ "-image-p".toList ++ decStr p ++ "-".toList ++ decStr q := by
  intro h
  simp only [List.append_assoc] at h
  have h2 := List.append_cancel_left h
  rw [contentSep_eq, imageSep_eq] at h2
  simp only [List.cons_append, List.nil_append] at h2
  injection h2 with h3 h4
  injection h4 with h5 h6
  exact absurd h5 (by decide)

theorem tableId_ne_imageId (docid : Str) (j p q : Nat) :
    docid ++ "-table-".toList ++ decStr j
      ≠ docid ++ "-image-p".toList ++ decStr p ++ "-".toList ++ decStr q := by
  intro h
  simp only [List.append_assoc] at h
  have h2 := List.append_cancel_left h
  rw [tableSep_eq, imageSep_eq] at h2
  simp only [List.cons_append, List.nil_append] at h2
  injection h2 with h3 h4
  injection h4 with h5 h6
  exact absurd h5 (by decide)

theorem ids_nodup_of_keys {α κ : Type} (l : List α) (key : α → κ) (enc : κ → Str)
    (f : α → Str) (hkeys : (l.map key).Nodup) (henc : Function.Injective enc)
    (hf : ∀ a ∈ l, f a = enc (key a)) : (l.map f).Nodup := by
  have h2 : l.map f = (l.map key).map enc := by
    rw [List.map_map]
    refine List.map_congr_left ?_
    intro a ha
    rw [hf a ha]
    rfl
  rw [h2]
  exact List.Nodup.map henc hkeys

theorem extract_tables_index_nodup (rawTables : List RawTable) :
    ((extract_tables rawTables).map (fun t => t.index)).Nodup := by
  unfold extract_tables
  rw [List.map_map]
  have h : ((fun t : TableData => t.index) ∘ fun it : Nat × RawTable =>
      TableData.mk it.1 it.2.page_number it.2.row_count it.2.column_count it.2.markdown)
      = Prod.fst := rfl
  rw [h, show rawTables.enum = rawTables.enumFrom 0 from rfl, List.enumFrom_map_fst]
  exact List.nodup_range' 0 rawTables.length

theorem image_pairs_aux (pages : List (List RawImage)) :
    ∀ (k : Nat),
      ((pages.enumFrom k).flatMap (fun pp =>
        (pp.2.enum).map (fun ii => (pp.1, ii.1)))).Nodup ∧
      (∀ pr ∈ (pages.enumFrom k).flatMap (fun pp =>
        (pp.2.enum).map (fun ii => (pp.1, ii.1))), k ≤ pr.1) := by
  induction pages with
  | nil =>
    intro k
    refine ⟨by simp [List.enumFrom], ?_⟩
    intro pr hpr
    simp [List.enumFrom] at hpr
  | cons pg rest ih =>
    intro k
    simp only [List.enumFrom, List.flatMap_cons]
    constructor
    · refine List.Nodup.append ?_ (ih (k + 1)).1 ?_
      · have h1 : pg.enum.map (fun ii => ((k : Nat), ii.1))
            = (pg.enum.map Prod.fst).map (fun i => (k, i)) := by
          rw [List.map_map]
          rfl
        rw [h1, show pg.enum = pg.enumFrom 0 from rfl, List.enumFrom_map_fst]
        refine List.Nodup.map ?_ (List.nodup_range' 0 pg.length)
        intro a b hab
        exact ((Prod.mk.injEq _ _ _ _).mp hab).2
      · intro a ha hb
        rcases List.mem_map.mp ha with ⟨ii, _, hai⟩
        have h2 := (ih (k + 1)).2 a hb
        rw [← hai] at h2
        simp at h2
    · intro pr hpr
      rcases List.mem_append.mp hpr with h | h
      · rcases List.mem_map.mp h with ⟨ii, _, hai⟩
        rw [← hai]
      · have h2 := (ih (k + 1)).2 pr h
        omega

theorem extract_images_pairs_nodup (pages : List (List RawImage)) :
    ((extract_images_from_pdf pages).map (fun im => (im.page_number, im.index))).Nodup := by
  unfold extract_images_from_pdf
  rw [List.map_flatMap]
  have h2 : ((pages.enumFrom 1).flatMap (fun pp =>
        ((pp.2.enum).map (fun ii =>
          ImageData.mk pp.1 ii.1 ii.2.extension ii.2.base64 ii.2.size)).map
          (fun im => (im.page_number, im.index))))
      = (pages.enumFrom 1).flatMap (fun pp => (pp.2.enum).map (fun ii => (pp.1, ii.1))) := by
    congr 1
    funext pp
    rw [List.map_map]
    rfl
  rw [h2]
  exact (image_pairs_aux pages 1).1

theorem filtered_images_pairs_nodup (pages : List (List RawImage)) (p : ImageData → Bool) :
    (((extract_images_from_pdf pages).filter p).map
      (fun im => (im.page_number, im.index))).Nodup := by
  have hsub : List.Sublist
      ((((extract_images_from_pdf pages).filter p).map
        (fun im => (im.page_number, im.index))))
      ((extract_images_from_pdf pages).map (fun im => (im.page_number, im.index))) :=
    (List.filter_sublist _).map _
  exact List.Nodup.sublist hsub (extract_images_pairs_nodup pages)

theorem process_pdf_ids_nodup (md5hex : Str → Str) (fp fn bu content : Str)
    (rawTables : List RawTable) (pages : List (List RawImage))
    (vision : Option (Str → Nat → Except PyExc Str))
    (embed : Option (Str → Nat → Except PyExc (List Int))) (inc : Bool) :
    ((process_pdf md5hex fp fn bu content rawTables pages vision embed inc).map
      (fun d => d.id)).Nodup := by
  simp only [process_pdf, List.map_append]
  have hA : (((chunk_content content 2000 200).map
        (contentDoc ((md5hex fp).take 16) fn fp bu embed)).map (fun d => d.id)).Nodup := by
    rw [List.map_map]
    refine ids_nodup_of_keys _ Prod.fst
      (fun i => (md5hex fp).take 16 ++ "-content-".toList ++ decStr i) _ ?_
      (contentId_inj _) ?_
    · rw [chunk_content_map_fst]
      exact List.nodup_range _
    · intro ch _
      exact (contentDoc_fields _ _ _ _ _ ch).1
  have hB : (((extract_tables rawTables).map
        (tableDoc ((md5hex fp).take 16) fn fp bu embed)).map (fun d => d.id)).Nodup := by
    rw [List.map_map]
    refine ids_nodup_of_keys _ (fun t => t.index)
      (fun j => (md5hex fp).take 16 ++ "-table-".toList ++ decStr j) _
      (extract_tables_index_nodup rawTables) (tableId_inj _) ?_
    intro t _
    exact (tableDoc_fields _ _ _ _ _ t).1
  have hShapeA : ∀ x ∈ ((chunk_content content 2000 200).map
      (contentDoc ((md5hex fp).take 16) fn fp bu embed)).map (fun d => d.id),
      ∃ i, x = (md5hex fp).take 16 ++ "-content-".toList ++ decStr i := by
    intro x hx
    rcases List.mem_map.mp hx with ⟨d, hd, hxd⟩
    rcases List.mem_map.mp hd with ⟨ch, _, hdc⟩
    exact ⟨ch.1, by rw [← hxd, ← hdc, (contentDoc_fields _ _ _ _ _ ch).1]⟩
  have hShapeB : ∀ x ∈ ((extract_tables rawTables).map
      (tableDoc ((md5hex fp).take 16) fn fp bu embed)).map (fun d => d.id),
      ∃ j, x = (md5hex fp).take 16 ++ "-table-".toList ++ decStr j := by
    intro x hx
    rcases List.mem_map.mp hx with ⟨d, hd, hxd⟩
    rcases List.mem_map.mp hd with ⟨t, _, hdt⟩
    exact ⟨t.index, by rw [← hxd, ← hdt, (tableDoc_fields _ _ _ _ _ t).1]⟩
  have hDisjAB : List.Disjoint
      (((chunk_content content 2000 200).map
        (contentDoc ((md5hex fp).take 16) fn fp bu embed)).map (fun d => d.id))
      (((extract_tables rawTables).map
        (tableDoc ((md5hex fp).take 16) fn fp bu embed)).map (fun d => d.id)) := by
    intro x hx hy
    rcases hShapeA x hx with ⟨i, hxi⟩
    rcases hShapeB x hy with ⟨j, hxj⟩
    exact contentId_ne_tableId _ i j (hxi.symm.trans hxj)
  have hAB := List.Nodup.append hA hB hDisjAB
  cases inc with
  | false => simpa using hAB
  | true =>
    cases vision with
    | none => simpa using hAB
    | some v =>
      have hC : ((((extract_images_from_pdf pages).filter
            (fun img => !decide (img.size < 5000))).map
            (imageDoc ((md5hex fp).take 16) fn fp bu v embed)).map (fun d => d.id)).Nodup := by
        rw [List.map_map]
        refine ids_nodup_of_keys _ (fun im => (im.page_number, im.index))
          (fun pr : Nat × Nat => (md5hex fp).take 16 ++ "-image-p".toList ++ decStr pr.1
            ++ "-".toList ++ decStr pr.2) _
          (filtered_images_pairs_nodup pages _) (imageId_inj _) ?_
        intro img _
        exact (imageDoc_fields _ _ _ _ _ _ img).1
      have hShapeC : ∀ x ∈ (((extract_images_from_pdf pages).filter
            (fun img => !decide (img.size < 5000))).map
            (imageDoc ((md5hex fp).take 16) fn fp bu v embed)).map (fun d => d.id),
          ∃ p q, x = (md5hex fp).take 16 ++ "-image-p".toList ++ decStr p
            ++ "-".toList ++ decStr q := by
        intro x hx
        rcases List.mem_map.mp hx with ⟨d, hd, hxd⟩
        rcases List.mem_map.mp hd with ⟨img, _, hdi⟩
        exact ⟨img.page_number, img.index,
          by rw [← hxd, ← hdi, (imageDoc_fields _ _ _ _ _ _ img).1]⟩
      refine List.Nodup.append hAB hC ?_
      intro x hx hy
      rcases hShapeC x hy with ⟨p, q, hxpq⟩
      rcases List.mem_append.mp hx with h | h
      · rcases hShapeA x h with ⟨i, hxi⟩
        exact contentId_ne_imageId _ i p q (hxi.symm.trans hxpq)
      · rcases hShapeB x h with ⟨j, hxj⟩
        exact tableId_ne_imageId _ j p q (hxj.symm.trans hxpq)

/-- C3 (amended): record ids are unique within a document's record set;
content and table records have the deterministic id
`{document_id}-{kind}-{index}` with the record's chunk index, while image
records have id `{document_id}-image-p{page}-{index}` — the page number is
part of the id (and necessary, since PyMuPDF image indices restart on every
page), so an image id is determined by (document id, page, index) rather
than by (document id, kind, index) alone. -/
theorem C3_record_ids (md5hex : Str → Str) (fp fn bu content : Str)
    (rawTables : List RawTable) (pages : List (List RawImage))
    (vision : Option (Str → Nat → Except PyExc Str))
    (embed : Option (Str → Nat → Except PyExc (List Int))) (inc : Bool) :
    ((process_pdf md5hex fp fn bu content rawTables pages vision embed inc).map
      (fun d => d.id)).Nodup ∧
    (∀ d ∈ process_pdf md5hex fp fn bu content rawTables pages vision embed inc,
      (d.chunk_type = "content".toList →
        d.id = (md5hex fp).take 16 ++ "-content-".toList ++ decStr d.chunk_index) ∧
      (d.chunk_type = "table".toList →
        d.id = (md5hex fp).take 16 ++ "-table-".toList ++ decStr d.chunk_index) ∧
      (d.chunk_type = "image".toList →
        d.id = (md5hex fp).take 16 ++ "-image-p".toList ++ decStr d.page_number
          ++ "-".toList ++ decStr d.chunk_index)) := by
  refine ⟨process_pdf_ids_nodup md5hex fp fn bu content rawTables pages vision embed inc, ?_⟩
  intro d hd
  rcases process_pdf_mem md5hex fp fn bu content rawTables pages vision embed inc d hd with
    ⟨ch, _, hde⟩ | ⟨t, _, hde⟩ | ⟨v, _, _, img, _, _, hde⟩
  · rcases contentDoc_fields ((md5hex fp).take 16) fn fp bu embed ch with ⟨h1, h2, h3⟩
    subst hde
    refine ⟨fun _ => by rw [h1, h3], fun hty => ?_, fun hty => ?_⟩
    · rw [h2] at hty
      exact absurd hty (by decide)
    · rw [h2] at hty
      exact absurd hty (by decide)
  · rcases tableDoc_fields ((md5hex fp).take 16) fn fp bu embed t with ⟨h1, h2, h3⟩
    subst hde
    refine ⟨fun hty => ?_, fun _ => by rw [h1, h3], fun hty => ?_⟩
    · rw [h2] at hty
      exact absurd hty (by decide)
    · rw [h2] at hty
      exact absurd hty (by decide)
  · rcases imageDoc_fields ((md5hex fp).take 16) fn fp bu v embed img with ⟨h1, h2, h3, h4, _⟩
    subst hde
    refine ⟨fun hty => ?_, fun hty => ?_, fun _ => by rw [h1, h3, h4]⟩
    · rw [h2] at hty
      exact absurd hty (by decide)
    · rw [h2] at hty
      exact absurd hty (by decide)

/-- C3 witness: the id theorem instantiated at a small document with one
content chunk, one table and one image; the per-record part is evaluated at
the image record, whose id comes out as `"d-image-p1-0"`. -/
theorem C3_record_ids_witness :
    ((process_pdf (fun _ => "d".toList) "f".toList "f".toList "u".toList
        "x".toList [⟨2, 1, 1, "m".toList⟩] [[⟨"png".toList, "AAAA".toList, 6000⟩]]
        (some (fun _ _ => .ok "desc".toList)) none true).map (fun d => d.id)).Nodup ∧
    (imageDoc (("d".toList : Str).take 16) "f".toList "f".toList "u".toList
        (fun _ _ => .ok "desc".toList) none
        ⟨1, 0, "png".toList, "AAAA".toList, 6000⟩).id = "d-image-p1-0".toList := by
  have h := C3_record_ids (fun _ => "d".toList) "f".toList "f".toList "u".toList
    "x".toList [⟨2, 1, 1, "m".toList⟩] [[⟨"png".toList, "AAAA".toList, 6000⟩]]
    (some (fun _ _ => .ok "desc".toList)) none true
  refine ⟨h.1, ?_⟩
  have h2 := (h.2 (imageDoc (("d".toList : Str).take 16) "f".toList "f".toList "u".toList
    (fun _ _ => .ok "desc".toList) none ⟨1, 0, "png".toList, "AAAA".toList, 6000⟩)
    (by decide)).2.2 (by decide)
  rw [h2]
  decide

/-- C3 counterexample: a document (document id `"d"`) with a single image on
page 1 at index 0 produces the image record id `"d-image-p1-0"`, which is
not of the claimed form `{document_id}-image-{index}` (here `"d-image-0"`):
image ids embed the page number. -/
theorem C3_counterexample :
    ((process_pdf (fun _ => "d".toList) "f".toList "f".toList "u".toList
        [] [] [[⟨"png".toList, "AAAA".toList, 6000⟩]]
        (some (fun _ _ => .ok "desc".toList)) none true).filter
        (fun d => d.chunk_type = "image".toList)).map (fun d => (d.id, d.chunk_index))
      = [("d-image-p1-0".toList, 0)] ∧
    "d-image-p1-0".toList ≠ "d".toList ++ "-image-".toList ++ decStr 0 := by
  refine ⟨by decide, by decide⟩

/-! ### Driver exit behaviour (claim C10) -/

/-- Outcome summary of a full `main()` run that reached the processing
phase: upload result totals plus the names of files whose processing raised
(caught per-file by `main`'s try/except). -/
structure RunSummary where
  succeeded : Nat
  failed : Nat
  failedFiles : List Str
  deriving Repr, DecidableEq

/-- Model of `main()` after argument parsing.  `createIndex` is the outcome
of `create_document_index` (the only call not wrapped in a try/except, so
its exception propagates and aborts the run); with `--create-index-only`
main returns right after it.  An empty glob result (`if not pdf_files:`)
logs a warning and returns — a normal completion.  Otherwise each file is
processed under a try/except that records the failure and continues, and
the collected documents are uploaded (only when the list is truthy) by
`upload_documents`, which itself catches per-batch errors and never
raises. -/
def main_run (createIndex : Except PyExc Unit) (createIndexOnly : Bool)
    (pdfFiles : List Str)
    (processFile : Str → Except PyExc (List SearchDoc))
    (store : List SearchDoc → Nat → Nat → Except PyExc (List Bool)) :
    Except PyExc (Option RunSummary) :=
  match createIndex with
  | .error e => .error e
  | .ok _ =>
    if createIndexOnly then .ok none
    else if pdfFiles.isEmpty then .ok none
    else
      let st := pdfFiles.foldl (fun (acc : List SearchDoc × List Str) f =>
        match processFile f with
        | .ok docs => (acc.1 ++ docs, acc.2)
        | .error _ => (acc.1, acc.2 ++ [f])) ([], [])
      let up := if st.1 = [] then ((0 : Nat), (0 : Nat))
        else ((upload_documents store st.1).1, (upload_documents store st.1).2.1)
      .ok (some ⟨up.1, up.2, st.2⟩)

/-- Process exit status of a modelled run: 0 when `main` returns, 1 when an
exception escapes it (CPython's behaviour for an unhandled exception). -/
def exitCode {α : Type} : Except PyExc α → Nat
  | .ok _ => 0
  | .error _ => 1

/-- C10 (amended): once `create_document_index` succeeds, every run exits
with code 0 — including runs with per-document failures and, contrary to
the claim, runs whose PDF folder matches no files (main logs a warning and
returns normally).  A non-zero exit happens exactly when an unhandled
exception escapes, and the only call outside a try/except is index
creation, whose error propagates unchanged.  The concrete conjunct shows a
partial-failure run: file "a" yields one document, file "b" raises; the run
still completes with exit 0, recording "b" as failed. -/
theorem C10_exit_codes (createIndexOnly : Bool) (pdfFiles : List Str)
    (processFile : Str → Except PyExc (List SearchDoc))
    (store : List SearchDoc → Nat → Nat → Except PyExc (List Bool))
    (e : PyExc) :
    exitCode (main_run (.ok ()) createIndexOnly pdfFiles processFile store) = 0 ∧
    main_run (.ok ()) false [] processFile store = .ok none ∧
    main_run (.error e) createIndexOnly pdfFiles processFile store = .error e ∧
    exitCode (main_run (.error e) createIndexOnly pdfFiles processFile store) = 1 ∧
    main_run (.ok ()) false ["a".toList, "b".toList]
      (fun f => if f = "a".toList
        then .ok [contentDoc "d".toList "a".toList "a".toList "u".toList none (0, "x".toList)]
        else .error (.apiError 500))
      (fun _ _ _ => .ok [true])
      = .ok (some ⟨1, 0, ["b".toList]⟩) := by
  refine ⟨?_, rfl, rfl, rfl, rfl⟩
  simp only [main_run]
  cases createIndexOnly with
  | true => rfl
  | false =>
    by_cases h : pdfFiles.isEmpty = true
    · simp [h, exitCode]
    · simp [h, exitCode]

/-- C10 counterexample: a run whose PDF folder matches no files completes
normally — `main()` logs a warning and returns, so the process exits with
code 0, not a non-zero "fatal configuration error" status. -/
theorem C10_counterexample :
    main_run (.ok ()) false []
      (fun _ => .error (.apiError 500)) (fun _ _ _ => .ok []) = .ok none ∧
    exitCode (main_run (.ok ()) false []
      (fun _ => .error (.apiError 500)) (fun _ _ _ => .ok [])) = 0 ∧
    (0 : Nat) ≠ 1 := ⟨rfl, rfl, by decide⟩

end CreateIndexPy
